import Mathlib

/-!
# MAX7219 bit-banged driver: embedding and verification

Shallow embedding of `max7219.c` (8-bit AVR, direct port access) and
`max7219_32.c` (32-bit AVR, GPIO calls).  A driver function is embedded as the
list of pin-toggle events it performs, in program order.  The pin-toggle
primitives `DATA_0() .. LOAD_1()` are preprocessor definitions that differ per
platform file; the driver body is written against them, so the embedding takes
them as a record `Pins ε` of events.

C types: `unsigned char` / `uint8_t` values are `Nat` reduced `% 256` where a
conversion happens; `char` values are `Int` (the value after integer
promotion), so that `character - 32` is the signed index the source computes.
-/

namespace Max7219

/-! ## Lines and pin-toggle primitives -/

/-- The three output lines of the serial link. -/
inductive Line where
  | DATA
  | CLK
  | LOAD
  deriving DecidableEq, Repr

/-- One abstract line operation `setLine(line, level)`; `level = true` is high. -/
structure LineOp where
  line : Line
  level : Bool
  deriving DecidableEq, Repr

/-- The six pin-toggle primitives `DATA_0() .. LOAD_1()` of a platform file
(max7219.c:53-67, max7219_32.c:55-64), each an event of type `ε`. -/
structure Pins (ε : Type) where
  DATA_0 : ε
  DATA_1 : ε
  CLK_0 : ε
  CLK_1 : ε
  LOAD_0 : ε
  LOAD_1 : ε
  /-- The pin set-up statements at the head of `MAX7219Init` (they select the
  pins as outputs and drive no level). -/
  configure : List ε

/-- The primitives read as abstract line operations: `X_0()` drives line X low,
`X_1()` drives it high. -/
def linePins : Pins LineOp where
  DATA_0 := ⟨Line.DATA, false⟩
  DATA_1 := ⟨Line.DATA, true⟩
  CLK_0 := ⟨Line.CLK, false⟩
  CLK_1 := ⟨Line.CLK, true⟩
  LOAD_0 := ⟨Line.LOAD, false⟩
  LOAD_1 := ⟨Line.LOAD, true⟩
  configure := []

/-- Conversion of a `char`/`int` value to `unsigned char` (reduction modulo 256). -/
def toUChar (x : Int) : Nat := (x % 256).toNat

/-! ## Register addresses (max7219.h:23-35) -/

def REG_DECODE : Nat := 0x09
def REG_INTENSITY : Nat := 0x0a
def REG_SCAN_LIMIT : Nat := 0x0b
def REG_SHUTDOWN : Nat := 0x0c
def REG_DISPLAY_TEST : Nat := 0x0f
def INTENSITY_MIN : Int := 0x00
def INTENSITY_MAX : Int := 0x0f
def L1 : Int := 0x01
def L2 : Int := 0x02
def L3 : Int := 0x04

/-! ## Protocol transmitter (identical text in both platform files) -/

/-- Loop of `MAX7219SendByte` (max7219.c:345-353, max7219_32.c:319-327):
`for (i = 8; i > 0; i--)`.  The argument is the loop counter `i`; in the
successor case `i + 1` the source's `i - 1` is `i`. -/
def MAX7219SendByte.loop {ε : Type} (P : Pins ε) (dataout : Nat) : Nat → List ε
  | 0 => []
  | i + 1 =>
    let mask := (1 <<< i) % 256                                   -- calculate bitmask
    [P.CLK_0,                                                     -- bring CLK low
     if dataout &&& mask ≠ 0 then P.DATA_1 else P.DATA_0,         -- output one data bit
     P.CLK_1]                                                     -- bring CLK high
      ++ MAX7219SendByte.loop P dataout i

/-- `static void MAX7219SendByte (unsigned char dataout)`. -/
def MAX7219SendByte {ε : Type} (P : Pins ε) (dataout : Nat) : List ε :=
  MAX7219SendByte.loop P (dataout % 256) 8

/-- `void MAX7219Write (unsigned char reg_number, unsigned char dataout)`
(max7219.c:206-212, max7219_32.c:162-168). -/
def MAX7219Write {ε : Type} (P : Pins ε) (reg_number dataout : Nat) : List ε :=
  [P.LOAD_1]                                 -- take LOAD high to begin
    ++ MAX7219SendByte P reg_number          -- write register number to MAX7219
    ++ MAX7219SendByte P dataout             -- write data to MAX7219
    ++ [P.LOAD_0,                            -- take LOAD low to latch in data
        P.LOAD_1]                            -- take LOAD high to end

/-! ## Display control operations shared by both platform files -/

/-- `void MAX7219ShutdownStart (void)` (max7219.c:224, max7219_32.c:180). -/
def MAX7219ShutdownStart {ε : Type} (P : Pins ε) : List ε :=
  MAX7219Write P REG_SHUTDOWN 0

/-- `void MAX7219ShutdownStop (void)` (max7219.c:238, max7219_32.c:194). -/
def MAX7219ShutdownStop {ε : Type} (P : Pins ε) : List ε :=
  MAX7219Write P REG_SHUTDOWN 1

/-- `void MAX7219DisplayTestStart (void)` (max7219.c:252, max7219_32.c:208). -/
def MAX7219DisplayTestStart {ε : Type} (P : Pins ε) : List ε :=
  MAX7219Write P REG_DISPLAY_TEST 1

/-- `void MAX7219DisplayTestStop (void)` (max7219.c:266, max7219_32.c:222). -/
def MAX7219DisplayTestStop {ε : Type} (P : Pins ε) : List ε :=
  MAX7219Write P REG_DISPLAY_TEST 0

/-- `void MAX7219SetBrightness (char brightness)` (max7219.c:280, max7219_32.c:236).
`brightness &= 0x0f` keeps the low four bits of the byte. -/
def MAX7219SetBrightness {ε : Type} (P : Pins ε) (brightness : Int) : List ε :=
  let brightness := toUChar brightness &&& 0x0f      -- mask off extra bits
  MAX7219Write P REG_INTENSITY brightness            -- set brightness

/-- `void MAX7219Clear (void)` (max7219.c:295, max7219_32.c:251):
`for (i = 0; i < 8; i++) MAX7219Write(i, 0x00);`. -/
def MAX7219Clear {ε : Type} (P : Pins ε) : List ε :=
  (List.range 8).flatMap (fun i => MAX7219Write P i 0x00)

/-- `void MAX7219DisplayL123 (char bits)` (max7219.c:329, max7219_32.c:285):
`bits << 4` is `bits * 16`, converted to `unsigned char` at the call. -/
def MAX7219DisplayL123 {ε : Type} (P : Pins ε) (bits : Int) : List ε :=
  MAX7219Write P 3 (toUChar (bits * 16))

/-- `void MAX7219Init (void)` (max7219.c:182, max7219_32.c:137). -/
def MAX7219Init {ε : Type} (P : Pins ε) : List ε :=
  P.configure
    ++ MAX7219Write P REG_SCAN_LIMIT 7               -- set up to scan all eight digits
    ++ MAX7219Write P REG_DECODE 0x00                -- set to "no decode" for all digits
    ++ MAX7219ShutdownStop P                         -- select normal operation
    ++ MAX7219DisplayTestStop P                      -- select normal operation
    ++ MAX7219Clear P                                -- clear all digits
    ++ MAX7219SetBrightness P INTENSITY_MAX          -- set to maximum intensity

/-- The `toupper` of `<ctype.h>` in the "C" locale (a C library function):
`a`..`z` (97..122) map to `A`..`Z`, every other value is returned unchanged.
The result of a `char` is again a `char`, so storing it back converts nothing. -/
def toupper (c : Int) : Int :=
  if 97 ≤ c ∧ c ≤ 122 then c - 32 else c

/-! ## 8-bit platform file `max7219.c` -/

namespace Avr8

/-- The port accesses made by the primitives of max7219.c: a read-modify-write
of `PORTC` (`PORTC &= ~bit`, `PORTC |= bit`) or of `DDRC` (`DDRC |= bit`). -/
inductive Event where
  | PORTC_clear (bit : Nat)
  | PORTC_set (bit : Nat)
  | DDRC_set (bit : Nat)
  deriving DecidableEq, Repr

def DATA_BIT : Nat := 0x01
def CLK_BIT : Nat := 0x04
def LOAD_BIT : Nat := 0x02

/-- The primitives of max7219.c:53-67 and the three `DDR` statements of
`MAX7219Init` (max7219.c:183-185). -/
def pins : Pins Event where
  DATA_0 := Event.PORTC_clear DATA_BIT
  DATA_1 := Event.PORTC_set DATA_BIT
  CLK_0 := Event.PORTC_clear CLK_BIT
  CLK_1 := Event.PORTC_set CLK_BIT
  LOAD_0 := Event.PORTC_clear LOAD_BIT
  LOAD_1 := Event.PORTC_set LOAD_BIT
  configure := [Event.DDRC_set DATA_BIT, Event.DDRC_set CLK_BIT, Event.DDRC_set LOAD_BIT]

/-- The line operation a port access amounts to, if it drives one of the three
lines (a `DDRC` access drives none). -/
def toLineOp : Event → Option LineOp
  | Event.PORTC_clear bit =>
    if bit = DATA_BIT then some ⟨Line.DATA, false⟩
    else if bit = CLK_BIT then some ⟨Line.CLK, false⟩
    else if bit = LOAD_BIT then some ⟨Line.LOAD, false⟩
    else none
  | Event.PORTC_set bit =>
    if bit = DATA_BIT then some ⟨Line.DATA, true⟩
    else if bit = CLK_BIT then some ⟨Line.CLK, true⟩
    else if bit = LOAD_BIT then some ⟨Line.LOAD, true⟩
    else none
  | Event.DDRC_set _ => none

/-- `const uint8_t SegmentData[] PROGMEM` (max7219.c:89-154): 64 patterns for
the characters 32 (space) to 95 (underscore). -/
def SegmentData : List Nat := [
  0b00000000,  -- space
  0b00000110,  -- !
  0b10001000,  -- "
  0b11101000,  -- #
  0b00011101,  -- $
  0b01011100,  -- %
  0b10111101,  -- &
  0b00001000,  -- single quote
  0b00111100,  -- (, left-parenthesis
  0b11010100,  -- ), right-parenthesis
  0b10001101,  -- *
  0b00101001,  -- +
  0b01010000,  -- ,
  0b00000001,  -- -
  0x80,  -- . or dp
  0b10000001,  -- /
  0x7e,  -- 0
  0x30,  -- 1
  0x6d,  -- 2
  0x79,  -- 3
  0x33,  -- 4
  0x5B,  -- 5
  0x5F,  -- 6
  0x70,  -- 7
  0x7F,  -- 8
  0x7B,  -- 9
  0b00010001,  -- :
  0b01010001,  -- ;
  0b00001101,  -- <
  0b00000101,  -- =
  0b10000101,  -- >
  0b10100101,  -- ?
  0b11110101,  -- @
  0x77,  -- A
  0x1F,  -- B
  0x4E,  -- C
  0x3D,  -- D
  0x4F,  -- E
  0x47,  -- F
  0b01111100,  -- G
  0b01101001,  -- H
  0b00101000,  -- I
  0b11110000,  -- J
  0b01101101,  -- K
  0b00111000,  -- L
  0b01100100,  -- M
  0b11101100,  -- N
  0b11111100,  -- O
  0b10101101,  -- P
  0b11001101,  -- Q
  0b10101100,  -- R
  0b01011101,  -- S
  0b00111001,  -- T
  0b11111000,  -- U
  0b11011000,  -- V
  0b10011000,  -- W
  0b11101001,  -- X
  0b11011001,  -- Y
  0b10010101,  -- Z
  0b00111100,  -- [
  0b00001001,  -- back slash
  0b11010100,  -- ]
  0b10001100,  -- ^
  0b00010000   -- _
]

/-- The read `pgm_read_byte(&SegmentData[index])`.  The source computes the
index as a signed `int` and does not check it; a read outside the 64 entries
of the array has no value defined by the program and is `none` here. -/
def pgm_read_byte_SegmentData (index : Int) : Option Nat :=
  if 0 ≤ index then SegmentData[index.toNat]? else none

/-- The pattern `MAX7219DisplayChar` fetches for a character (max7219.c:314-315):
`character = toupper(character); byte = pgm_read_byte(&SegmentData[character - 32]);`. -/
def lookup (character : Int) : Option Nat :=
  let character := toupper character
  pgm_read_byte_SegmentData (character - 32)

/-- `void MAX7219DisplayChar (char digit, char character, uint8_t setDot)`
(max7219.c:313-317).  `none` when the table read is outside the array. -/
def MAX7219DisplayChar {ε : Type} (P : Pins ε) (digit character : Int) (setDot : Nat) :
    Option (List ε) :=
  match lookup character with
  | none => none
  | some byte => some (MAX7219Write P (toUChar digit) (byte ||| setDot % 256))

end Avr8

/-! ## 32-bit platform file `max7219_32.c` -/

namespace Avr32

/-- The GPIO library calls made by max7219_32.c, with the pin number passed. -/
inductive Event where
  | gpio_clr_gpio_pin (pin : Nat)
  | gpio_set_gpio_pin (pin : Nat)
  | gpio_enable_gpio_pin (pin : Nat)
  deriving DecidableEq, Repr

/-- Pin numbers `AVR32_PIN_PA05..PA07` (port A, pins 5 to 7; the constants come
from the toolchain headers). -/
def GPIO_DATA_PIN : Nat := 5
def GPIO_CLK_PIN : Nat := 6
def GPIO_LOAD_PIN : Nat := 7

/-- The primitives of max7219_32.c:55-64 and the three `gpio_enable_gpio_pin`
calls of `MAX7219Init` (max7219_32.c:139-141). -/
def pins : Pins Event where
  DATA_0 := Event.gpio_clr_gpio_pin GPIO_DATA_PIN
  DATA_1 := Event.gpio_set_gpio_pin GPIO_DATA_PIN
  CLK_0 := Event.gpio_clr_gpio_pin GPIO_CLK_PIN
  CLK_1 := Event.gpio_set_gpio_pin GPIO_CLK_PIN
  LOAD_0 := Event.gpio_clr_gpio_pin GPIO_LOAD_PIN
  LOAD_1 := Event.gpio_set_gpio_pin GPIO_LOAD_PIN
  configure := [Event.gpio_enable_gpio_pin GPIO_DATA_PIN,
                Event.gpio_enable_gpio_pin GPIO_CLK_PIN,
                Event.gpio_enable_gpio_pin GPIO_LOAD_PIN]

/-- The line operation a GPIO call amounts to, if it drives one of the three
lines (`gpio_enable_gpio_pin` drives none). -/
def toLineOp : Event → Option LineOp
  | Event.gpio_clr_gpio_pin pin =>
    if pin = GPIO_DATA_PIN then some ⟨Line.DATA, false⟩
    else if pin = GPIO_CLK_PIN then some ⟨Line.CLK, false⟩
    else if pin = GPIO_LOAD_PIN then some ⟨Line.LOAD, false⟩
    else none
  | Event.gpio_set_gpio_pin pin =>
    if pin = GPIO_DATA_PIN then some ⟨Line.DATA, true⟩
    else if pin = GPIO_CLK_PIN then some ⟨Line.CLK, true⟩
    else if pin = GPIO_LOAD_PIN then some ⟨Line.LOAD, true⟩
    else none
  | Event.gpio_enable_gpio_pin _ => none

/-- Conversion of an integer constant to `char`.  Whether `char` is signed is
left to the compiler, so it is a parameter: `sc = true` for a signed `char`
(range -128..127), `false` for an unsigned one (0..255). -/
def toChar (sc : Bool) (x : Int) : Int :=
  if sc then (x + 128) % 256 - 128 else x % 256

/-- One element of the `SegmentData` array: `struct { char ascii; char segs; }`. -/
structure Entry where
  ascii : Int
  segs : Int
  deriving DecidableEq, Repr

/-- `static const struct {...} SegmentData[]` (max7219_32.c:86-109); the keys
are written as character codes. -/
def SegmentData (sc : Bool) : List Entry := [
  ⟨32, toChar sc 0x00⟩,   -- ' '
  ⟨48, toChar sc 0x7e⟩,   -- '0'
  ⟨49, toChar sc 0x30⟩,   -- '1'
  ⟨50, toChar sc 0x6d⟩,   -- '2'
  ⟨51, toChar sc 0x79⟩,   -- '3'
  ⟨52, toChar sc 0x33⟩,   -- '4'
  ⟨53, toChar sc 0x5b⟩,   -- '5'
  ⟨54, toChar sc 0x5f⟩,   -- '6'
  ⟨55, toChar sc 0x70⟩,   -- '7'
  ⟨56, toChar sc 0x7f⟩,   -- '8'
  ⟨57, toChar sc 0x7b⟩,   -- '9'
  ⟨65, toChar sc 0x77⟩,   -- 'A'
  ⟨66, toChar sc 0x1f⟩,   -- 'B'
  ⟨67, toChar sc 0x4e⟩,   -- 'C'
  ⟨68, toChar sc 0x3d⟩,   -- 'D'
  ⟨69, toChar sc 0x4f⟩,   -- 'E'
  ⟨70, toChar sc 0x47⟩,   -- 'F'
  ⟨46, toChar sc 0x80⟩,   -- '.'
  ⟨0, toChar sc 0x00⟩     -- '\0'
]

/-- The character codes the scan of `MAX7219LookupCode` can match: the `ascii`
fields of the entries before the terminating entry. -/
def keys : List Int :=
  ((SegmentData false).map Entry.ascii).takeWhile (fun a => a != 0)

/-- Loop of `MAX7219LookupCode` (max7219_32.c:303-306) over the entries from
index `i` on: `for (i = 0; SegmentData[i].ascii; i++) if (character ==
SegmentData[i].ascii) return SegmentData[i].segs; return 0;`.  The result
is the `unsigned char` returned; `none` if the scan leaves the array. -/
def MAX7219LookupCode.scan (character : Int) : List Entry → Option Nat
  | [] => none
  | e :: rest =>
    if e.ascii = 0 then some 0                          -- code not found, return null (blank)
    else if character = e.ascii then some (toUChar e.segs)   -- return segments code
    else MAX7219LookupCode.scan character rest

/-- `static unsigned char MAX7219LookupCode (char character)` (max7219_32.c:300-307). -/
def MAX7219LookupCode (sc : Bool) (character : Int) : Option Nat :=
  let character := toupper character
  MAX7219LookupCode.scan character (SegmentData sc)

/-- `void MAX7219DisplayChar (char digit, char character, unsigned char setDot)`
(max7219_32.c:269-273). -/
def MAX7219DisplayChar {ε : Type} (P : Pins ε) (sc : Bool) (digit character : Int)
    (setDot : Nat) : Option (List ε) :=
  let character := toupper character
  match MAX7219LookupCode sc character with
  | none => none
  | some byte => some (MAX7219Write P (toUChar digit) (byte ||| setDot % 256))

end Avr32

/-! ## Observing a trace of line operations -/

/-- Levels of the three lines. -/
structure Lines where
  data : Bool
  clk : Bool
  load : Bool
  deriving DecidableEq, Repr

/-- Effect of one line operation on the line levels. -/
def Lines.set (s : Lines) (op : LineOp) : Lines :=
  match op.line with
  | Line.DATA => { s with data := op.level }
  | Line.CLK => { s with clk := op.level }
  | Line.LOAD => { s with load := op.level }

/-- Line levels after a whole trace. -/
def Lines.run (s : Lines) (t : List LineOp) : Lines := t.foldl Lines.set s

/-- An operation that takes CLK from low to high. -/
def isClkRise (s : Lines) (op : LineOp) : Bool :=
  op.line == Line.CLK && !s.clk && op.level

/-- An operation that takes LOAD from low to high. -/
def isLoadRise (s : Lines) (op : LineOp) : Bool :=
  op.line == Line.LOAD && !s.load && op.level

/-- The DATA level present at each CLK low-to-high transition of the trace,
in order of occurrence, starting from line levels `s`. -/
def clockedBits (s : Lines) : List LineOp → List Bool
  | [] => []
  | op :: t =>
    if isClkRise s op then s.data :: clockedBits (s.set op) t
    else clockedBits (s.set op) t

/-- The number of LOAD low-to-high transitions of a trace, starting from line
levels `s`. -/
def loadRises (s : Lines) : List LineOp → Nat
  | [] => 0
  | op :: t => (if isLoadRise s op then 1 else 0) + loadRises (s.set op) t

/-- Bits 7..0 of a byte, most significant first. -/
def byteBitsMSB (b : Nat) : List Bool :=
  [b.testBit 7, b.testBit 6, b.testBit 5, b.testBit 4,
   b.testBit 3, b.testBit 2, b.testBit 1, b.testBit 0]

/-- Bits 15..0 of a 16-bit word, most significant first. -/
def wordBitsMSB (w : Nat) : List Bool :=
  (List.range 16).map (fun k => w.testBit (15 - k))

/-- Bits `i-1 .. 0` of `b`, most significant first. -/
def bitsFrom (b : Nat) : Nat → List Bool
  | 0 => []
  | i + 1 => b.testBit i :: bitsFrom b i

/-- Line levels after `i` iterations of the send loop on byte `b`: once an
iteration has run, CLK is high and DATA carries bit 0 of `b`. -/
def afterSend (s : Lines) (b : Nat) (i : Nat) : Lines :=
  if i = 0 then s else ⟨b.testBit 0, true, s.load⟩

/-- Shift register after clocking in bits `i-1 .. 0` of `b`. -/
def shiftIn (shift b : Nat) : Nat → Nat
  | 0 => shift
  | i + 1 => shiftIn ((shift * 2 + (b.testBit i).toNat) % 65536) b i

/-! ## The device side: shift register, latch and display state -/

/-- Modelled from the spec: the MAX7219 device, which is hardware and not part
of the repository.  Per the protocol description the device samples DATA on
each rising edge of CLOCK into a 16-bit shift register (address byte, then
data byte, most significant bit first), and a low-to-high edge of LOAD latches
the 16 bits just shifted.  `shift` is the shift register; `writes` lists the
latched frames `(address byte, data byte)`, oldest first. -/
structure Device where
  lines : Lines
  shift : Nat
  writes : List (Nat × Nat)
  deriving DecidableEq, Repr

/-- Modelled from the spec: reaction of the device to one line operation. -/
def Device.step (d : Device) (op : LineOp) : Device where
  lines := d.lines.set op
  shift := if isClkRise d.lines op then (d.shift * 2 + d.lines.data.toNat) % 65536 else d.shift
  writes := if isLoadRise d.lines op then d.writes ++ [(d.shift / 256, d.shift % 256)]
            else d.writes

/-- Modelled from the spec: reaction of the device to a trace. -/
def Device.run (d : Device) (t : List LineOp) : Device := t.foldl Device.step d

/-- Modelled from the spec: the `DisplayState`, the value last written to a
register (`none` if the register was never written). -/
def lastWritten (writes : List (Nat × Nat)) (reg : Nat) : Option Nat :=
  (writes.reverse.find? (fun w => w.1 == reg)).map Prod.snd

/-- Modelled from the spec: register `reg` of the display state of a device. -/
def Device.reg (d : Device) (reg : Nat) : Option Nat := lastWritten d.writes reg

/-! ## Sequences of register writes and edges -/

/-- The trace of a sequence of `MAX7219Write` calls, one per pair
`(reg_number, dataout)`, in order. -/
def writeAll {ε : Type} (P : Pins ε) (ws : List (Nat × Nat)) : List ε :=
  ws.flatMap (fun w => MAX7219Write P w.1 w.2)

/-- A low-to-high transition of CLK or of LOAD. -/
inductive Edge where
  | clk
  | load
  deriving DecidableEq, Repr

/-- The low-to-high transitions of CLK and LOAD a trace causes, in order of
occurrence, starting from line levels `s`. -/
def edges (s : Lines) : List LineOp → List Edge
  | [] => []
  | op :: t =>
    (if isClkRise s op then [Edge.clk] else if isLoadRise s op then [Edge.load] else [])
      ++ edges (s.set op) t

/-- The edges of one register write issued while LOAD is high: 16 rising edges
of CLK, then one rising edge of LOAD. -/
def frameEdges : List Edge := List.replicate 16 Edge.clk ++ [Edge.load]

/-- A map `f` from the events of a platform to line operations reads the
platform's primitives as what they are named after, and its pin set-up
statements as no line operation. -/
def Pins.ReadsAs {ε : Type} (P : Pins ε) (f : ε → Option LineOp) : Prop :=
  f P.DATA_0 = some linePins.DATA_0 ∧ f P.DATA_1 = some linePins.DATA_1
    ∧ f P.CLK_0 = some linePins.CLK_0 ∧ f P.CLK_1 = some linePins.CLK_1
    ∧ f P.LOAD_0 = some linePins.LOAD_0 ∧ f P.LOAD_1 = some linePins.LOAD_1
    ∧ ∀ e ∈ P.configure, f e = none

/-! ## The write sequence in the words of the specification -/

/-- Serialisation of one byte as section 4.2 of the specification words it: for
each bit from bit 7 down to bit 0, DATA is set to the bit value, then CLOCK is
pulsed low, then high. -/
def specSerialize (b : Nat) : List LineOp :=
  [7, 6, 5, 4, 3, 2, 1, 0].flatMap
    (fun k => [⟨Line.DATA, b.testBit k⟩, ⟨Line.CLK, false⟩, ⟨Line.CLK, true⟩])

/-- The line operations of `writeRegister` as the specification lists them: LOAD
high, the address byte, the data byte, LOAD low, LOAD high. -/
def specWriteRegister (addr data : Nat) : List LineOp :=
  [⟨Line.LOAD, true⟩] ++ specSerialize addr ++ specSerialize data
    ++ [⟨Line.LOAD, false⟩, ⟨Line.LOAD, true⟩]

/-- Serialisation of one byte with the clock taken low before DATA is set: for
each bit from bit 7 down to bit 0, CLOCK low, DATA set to the bit value, CLOCK
high. -/
def clockFirstSerialize (b : Nat) : List LineOp :=
  [7, 6, 5, 4, 3, 2, 1, 0].flatMap
    (fun k => [⟨Line.CLK, false⟩, ⟨Line.DATA, b.testBit k⟩, ⟨Line.CLK, true⟩])

/-! ## Sequences of public operations (max7219.h:42-51) -/

/-- A call of one of the ten public functions declared in max7219.h, with its
arguments. -/
inductive Call where
  | Init
  | ShutdownStart
  | ShutdownStop
  | DisplayTestStart
  | DisplayTestStop
  | SetBrightness (brightness : Int)
  | Clear
  | DisplayChar (digit character : Int) (setDot : Nat)
  | DisplayL123 (bits : Int)
  | Write (reg_number dataout : Nat)
  deriving DecidableEq, Repr

/-- The trace of one call, given the platform's `MAX7219DisplayChar`; `none` when
that function reads outside its table. -/
def callWith {ε : Type} (displayChar : Int → Int → Nat → Option (List ε)) (P : Pins ε) :
    Call → Option (List ε)
  | Call.Init => some (MAX7219Init P)
  | Call.ShutdownStart => some (MAX7219ShutdownStart P)
  | Call.ShutdownStop => some (MAX7219ShutdownStop P)
  | Call.DisplayTestStart => some (MAX7219DisplayTestStart P)
  | Call.DisplayTestStop => some (MAX7219DisplayTestStop P)
  | Call.SetBrightness brightness => some (MAX7219SetBrightness P brightness)
  | Call.Clear => some (MAX7219Clear P)
  | Call.DisplayChar digit character setDot => displayChar digit character setDot
  | Call.DisplayL123 bits => some (MAX7219DisplayL123 P bits)
  | Call.Write reg_number dataout => some (MAX7219Write P reg_number dataout)

/-- The trace of a sequence of calls, one after the other. -/
def callsWith {ε : Type} (displayChar : Int → Int → Nat → Option (List ε)) (P : Pins ε) :
    List Call → Option (List ε)
  | [] => some []
  | c :: cs =>
    match callWith displayChar P c, callsWith displayChar P cs with
    | some t, some u => some (t ++ u)
    | _, _ => none

/-- The trace of a sequence of calls of the public functions of max7219.c. -/
def Avr8.calls {ε : Type} (P : Pins ε) (cs : List Call) : Option (List ε) :=
  callsWith (Avr8.MAX7219DisplayChar P) P cs

/-- The trace of a sequence of calls of the public functions of max7219_32.c. -/
def Avr32.calls {ε : Type} (P : Pins ε) (sc : Bool) (cs : List Call) : Option (List ε) :=
  callsWith (Avr32.MAX7219DisplayChar P sc) P cs

/-- Every DATA operation of the trace has the operation `CLOCK low` right before
it and the operation `CLOCK high` right after it; `prev` is the operation before
the first one of the list, if any. -/
def dataFramedFrom (prev : Option LineOp) : List LineOp → Bool
  | [] => true
  | op :: t =>
    (op.line != Line.DATA
        || (prev == some ⟨Line.CLK, false⟩ && t.head? == some ⟨Line.CLK, true⟩))
      && dataFramedFrom (some op) t

/-- Every DATA operation of a whole trace is framed by `CLOCK low` and
`CLOCK high`. -/
def dataFramed (t : List LineOp) : Bool := dataFramedFrom none t

/-- No DATA operation of the trace happens while CLK is high, starting from line
levels `s`. -/
def dataWritesClkLow (s : Lines) : List LineOp → Bool
  | [] => true
  | op :: t => (op.line != Line.DATA || !s.clk) && dataWritesClkLow (s.set op) t

/-! ## The scan of `MAX7219LookupCode` with its index and its comparisons -/

/-- What a run of the scan loop of `MAX7219LookupCode` did: the value returned,
the number of comparisons `character == SegmentData[i].ascii` made, and the
largest index at which the table was read. -/
structure Avr32.ScanRun where
  result : Nat
  comparisons : Nat
  lastIndex : Nat
  deriving DecidableEq, Repr

/-- The loop of `MAX7219LookupCode` (max7219_32.c:303-306) on a table `tbl`, with
the index `unsigned char i` explicit and a bound `fuel` on the number of
iterations: `none` when the iterations run out or the index leaves the table. -/
def Avr32.MAX7219LookupCode.steps (tbl : List Avr32.Entry) (character : Int) :
    Nat → Nat → Option Avr32.ScanRun
  | 0, _ => none
  | fuel + 1, i =>
    match tbl[i]? with
    | none => none
    | some e =>
      if e.ascii = 0 then some ⟨0, 0, i⟩                            -- loop ends, return 0
      else if character = e.ascii then some ⟨toUChar e.segs, 1, i⟩   -- return segments code
      else
        (Avr32.MAX7219LookupCode.steps tbl character fuel ((i + 1) % 256)).map
          (fun r => ⟨r.result, r.comparisons + 1, r.lastIndex⟩)

/-! ## Helper lemmas: the send loop -/

theorem and_mask_ne_zero (n i : Nat) (hi : i < 8) :
    (n &&& (1 <<< i) % 256 ≠ 0) ↔ n.testBit i = true := by
  have hpow : 2 ^ i ≤ 2 ^ 7 := Nat.pow_le_pow_right (by norm_num) (by omega)
  rw [Nat.one_shiftLeft, Nat.mod_eq_of_lt (by omega)]
  constructor
  · intro h
    by_contra hb
    apply h
    apply Nat.eq_of_testBit_eq
    intro j
    simp only [Nat.testBit_and, Nat.testBit_two_pow, Nat.zero_testBit, Bool.and_eq_false_imp,
      decide_eq_false_iff_not]
    intro h1 h2
    subst h2
    exact absurd h1 hb
  · intro h h0
    have hbit := congrArg (fun m => m.testBit i) h0
    simp [Nat.testBit_two_pow, h] at hbit

theorem loop_succ (b i : Nat) (hi : i < 8) :
    MAX7219SendByte.loop linePins b (i + 1)
      = [⟨Line.CLK, false⟩, ⟨Line.DATA, b.testBit i⟩, ⟨Line.CLK, true⟩]
          ++ MAX7219SendByte.loop linePins b i := by
  simp only [MAX7219SendByte.loop, linePins]
  by_cases hb : b.testBit i = true
  · rw [if_pos ((and_mask_ne_zero b i hi).2 hb), hb]
  · rw [if_neg (fun h => hb ((and_mask_ne_zero b i hi).1 h))]
    simp only [Bool.not_eq_true] at hb
    rw [hb]

theorem afterSend_step (s : Lines) (b i : Nat) :
    afterSend ⟨b.testBit i, true, s.load⟩ b i = afterSend s b (i + 1) := by
  unfold afterSend
  by_cases h0 : i = 0
  · subst h0; simp
  · simp [h0]

theorem clockedBits_triple (s : Lines) (v : Bool) (t : List LineOp) :
    clockedBits s (⟨Line.CLK, false⟩ :: ⟨Line.DATA, v⟩ :: ⟨Line.CLK, true⟩ :: t)
      = v :: clockedBits ⟨v, true, s.load⟩ t := by
  simp [clockedBits, isClkRise, Lines.set]

theorem loop_clocked (b : Nat) (i : Nat) (hi : i ≤ 8) (s : Lines) (rest : List LineOp) :
    clockedBits s (MAX7219SendByte.loop linePins b i ++ rest)
      = bitsFrom b i ++ clockedBits (afterSend s b i) rest := by
  induction i generalizing s with
  | zero => simp [MAX7219SendByte.loop, bitsFrom, afterSend]
  | succ i ih =>
    rw [loop_succ b i (by omega), ← afterSend_step, List.append_assoc]
    simp only [List.cons_append, List.nil_append]
    rw [clockedBits_triple, ih (by omega)]
    rfl

theorem sendByte_clocked (s : Lines) (b : Nat) (rest : List LineOp) :
    clockedBits s (MAX7219SendByte linePins b ++ rest)
      = byteBitsMSB (b % 256) ++ clockedBits ⟨(b % 256).testBit 0, true, s.load⟩ rest := by
  unfold MAX7219SendByte
  rw [loop_clocked _ 8 (le_refl _)]
  rfl

theorem clockedBits_load (s : Lines) (v : Bool) (t : List LineOp) :
    clockedBits s (⟨Line.LOAD, v⟩ :: t) = clockedBits ⟨s.data, s.clk, v⟩ t := by
  simp [clockedBits, isClkRise, Lines.set]

theorem write_unfold (addr data : Nat) :
    MAX7219Write linePins addr data
      = ⟨Line.LOAD, true⟩ :: (MAX7219SendByte linePins addr
          ++ (MAX7219SendByte linePins data ++ [⟨Line.LOAD, false⟩, ⟨Line.LOAD, true⟩])) := by
  simp only [MAX7219Write, List.singleton_append, List.append_assoc, List.cons_append]
  rfl

theorem write_clocked (s : Lines) (addr data : Nat) :
    clockedBits s (MAX7219Write linePins addr data)
      = byteBitsMSB (addr % 256) ++ byteBitsMSB (data % 256) := by
  rw [write_unfold, clockedBits_load, sendByte_clocked, sendByte_clocked, clockedBits_load,
    clockedBits_load]
  simp [clockedBits]

theorem byteBits_word (addr data : Nat) (hdata : data < 256) :
    byteBitsMSB addr ++ byteBitsMSB data = wordBitsMSB (addr * 256 + data) := by
  have key : ∀ j, (addr * 256 + data).testBit j
      = if j < 8 then data.testBit j else addr.testBit (j - 8) := by
    intro j
    have h := Nat.testBit_mul_pow_two_add addr (show data < 2 ^ 8 by omega) j
    rw [show addr * 256 + data = 2 ^ 8 * addr + data by omega]
    exact h
  simp [byteBitsMSB, wordBitsMSB, List.range, List.range.loop, key]

/-! ## Helper lemmas: the platform primitives read as line operations -/

/-- The send loop of a platform, read through a map `f` of its events to line
operations that sends each primitive to its line operation. -/
theorem loop_filterMap {ε : Type} (P : Pins ε) (f : ε → Option LineOp)
    (hd0 : f P.DATA_0 = some linePins.DATA_0) (hd1 : f P.DATA_1 = some linePins.DATA_1)
    (hc0 : f P.CLK_0 = some linePins.CLK_0) (hc1 : f P.CLK_1 = some linePins.CLK_1)
    (b i : Nat) :
    (MAX7219SendByte.loop P b i).filterMap f = MAX7219SendByte.loop linePins b i := by
  induction i with
  | zero => rfl
  | succ i ih =>
    simp only [MAX7219SendByte.loop, List.cons_append, List.nil_append, List.filterMap_cons, hc0,
      hc1, ih]
    split_ifs <;> simp [hd0, hd1]

theorem write_filterMap {ε : Type} (P : Pins ε) (f : ε → Option LineOp)
    (hd0 : f P.DATA_0 = some linePins.DATA_0) (hd1 : f P.DATA_1 = some linePins.DATA_1)
    (hc0 : f P.CLK_0 = some linePins.CLK_0) (hc1 : f P.CLK_1 = some linePins.CLK_1)
    (hl0 : f P.LOAD_0 = some linePins.LOAD_0) (hl1 : f P.LOAD_1 = some linePins.LOAD_1)
    (addr data : Nat) :
    (MAX7219Write P addr data).filterMap f = MAX7219Write linePins addr data := by
  simp only [MAX7219Write, MAX7219SendByte, List.filterMap_append,
    loop_filterMap P f hd0 hd1 hc0 hc1, List.filterMap_cons, List.filterMap_nil, hl0, hl1]

/-- The port accesses of `MAX7219Write` in max7219.c are the line operations of
the abstract trace. -/
theorem avr8_write_lines (addr data : Nat) :
    (MAX7219Write Avr8.pins addr data).filterMap Avr8.toLineOp
      = MAX7219Write linePins addr data :=
  write_filterMap Avr8.pins Avr8.toLineOp rfl rfl rfl rfl rfl rfl addr data

/-- The GPIO calls of `MAX7219Write` in max7219_32.c are the line operations of
the abstract trace. -/
theorem avr32_write_lines (addr data : Nat) :
    (MAX7219Write Avr32.pins addr data).filterMap Avr32.toLineOp
      = MAX7219Write linePins addr data :=
  write_filterMap Avr32.pins Avr32.toLineOp rfl rfl rfl rfl rfl rfl addr data

/-! ## C1 -/

/-- C1: for every register byte `addr` and data byte `data`, from any initial
line levels, `MAX7219Write` makes exactly 16 CLK low-to-high transitions, and the
DATA levels present at those edges are bits 7..0 of `addr` followed by bits 7..0
of `data`, that is, the word `addr * 256 + data` most significant bit first.  The
trace of line operations is the one both platform files perform. -/
theorem write_clocks_sixteen_bits (addr data : Nat) (haddr : addr < 256) (hdata : data < 256)
    (s : Lines) :
    (MAX7219Write Avr8.pins addr data).filterMap Avr8.toLineOp = MAX7219Write linePins addr data
      ∧ (MAX7219Write Avr32.pins addr data).filterMap Avr32.toLineOp
          = MAX7219Write linePins addr data
      ∧ (clockedBits s (MAX7219Write linePins addr data)).length = 16
      ∧ clockedBits s (MAX7219Write linePins addr data) = byteBitsMSB addr ++ byteBitsMSB data
      ∧ clockedBits s (MAX7219Write linePins addr data) = wordBitsMSB (addr * 256 + data) := by
  have h := write_clocked s addr data
  rw [Nat.mod_eq_of_lt haddr, Nat.mod_eq_of_lt hdata] at h
  refine ⟨avr8_write_lines addr data, avr32_write_lines addr data, ?_, h, ?_⟩
  · rw [h]; rfl
  · rw [h, byteBits_word addr data hdata]

/-- Witness for C1: the frame (0x0A, 0x04) from all lines low. -/
theorem write_clocks_sixteen_bits_witness :
    (10 : Nat) < 256 ∧ (4 : Nat) < 256
      ∧ (clockedBits ⟨false, false, false⟩ (MAX7219Write linePins 10 4)).length = 16
      ∧ clockedBits ⟨false, false, false⟩ (MAX7219Write linePins 10 4)
          = byteBitsMSB 10 ++ byteBitsMSB 4
      ∧ clockedBits ⟨false, false, false⟩ (MAX7219Write linePins 10 4)
          = wordBitsMSB (10 * 256 + 4) :=
  ⟨by decide, by decide,
    (write_clocks_sixteen_bits 10 4 (by decide) (by decide) ⟨false, false, false⟩).2.2⟩

/-! ## Helper lemmas: line levels after a trace -/

theorem loop_no_load (b i : Nat) (hi : i ≤ 8) :
    ∀ op ∈ MAX7219SendByte.loop linePins b i, op.line ≠ Line.LOAD := by
  induction i with
  | zero => simp [MAX7219SendByte.loop]
  | succ i ih =>
    rw [loop_succ b i (by omega)]
    intro op hop
    simp only [List.cons_append, List.nil_append, List.mem_cons] at hop
    rcases hop with h | h | h | h
    · subst h; decide
    · subst h; simp
    · subst h; decide
    · exact ih (by omega) op h

theorem run_append (s : Lines) (t u : List LineOp) :
    Lines.run s (t ++ u) = Lines.run (Lines.run s t) u := by
  simp [Lines.run, List.foldl_append]

theorem run_cons (s : Lines) (op : LineOp) (t : List LineOp) :
    Lines.run s (op :: t) = Lines.run (s.set op) t := rfl

theorem run_loop (b : Nat) (i : Nat) (hi : i ≤ 8) (s : Lines) :
    Lines.run s (MAX7219SendByte.loop linePins b i) = afterSend s b i := by
  induction i generalizing s with
  | zero => simp [MAX7219SendByte.loop, afterSend, Lines.run]
  | succ i ih =>
    rw [loop_succ b i (by omega), ← afterSend_step, run_append, ← ih (by omega)]
    rfl

theorem run_sendByte (s : Lines) (b : Nat) :
    Lines.run s (MAX7219SendByte linePins b) = ⟨(b % 256).testBit 0, true, s.load⟩ := by
  unfold MAX7219SendByte
  rw [run_loop _ 8 (le_refl _)]
  rfl

theorem run_write (s : Lines) (addr data : Nat) :
    Lines.run s (MAX7219Write linePins addr data) = ⟨(data % 256).testBit 0, true, true⟩ := by
  rw [write_unfold, run_cons, run_append, run_append, run_sendByte, run_sendByte]
  rfl

/-! ## C2 -/

/-- C2: for every `addr` and `data` the trace of `MAX7219Write`, the same in
both platform files, is `LOAD high`, then a middle part that holds all 16 clock
pulses and never touches LOAD, then `LOAD low, LOAD high`, which is exactly one
low-to-high transition of LOAD after the last clock edge; LOAD is high when the
call returns. -/
theorem write_load_framing (addr data : Nat) (s : Lines) :
    (MAX7219Write Avr8.pins addr data).filterMap Avr8.toLineOp = MAX7219Write linePins addr data
      ∧ (MAX7219Write Avr32.pins addr data).filterMap Avr32.toLineOp
          = MAX7219Write linePins addr data
      ∧ ∃ mid : List LineOp,
        MAX7219Write linePins addr data
            = ⟨Line.LOAD, true⟩ :: (mid ++ [⟨Line.LOAD, false⟩, ⟨Line.LOAD, true⟩])
          ∧ (∀ op ∈ mid, op.line ≠ Line.LOAD)
          ∧ (clockedBits (s.set ⟨Line.LOAD, true⟩) mid).length = 16
          ∧ loadRises (Lines.run s (⟨Line.LOAD, true⟩ :: mid))
              [⟨Line.LOAD, false⟩, ⟨Line.LOAD, true⟩] = 1
          ∧ (Lines.run s (MAX7219Write linePins addr data)).load = true := by
  refine ⟨avr8_write_lines addr data, avr32_write_lines addr data,
    MAX7219SendByte linePins addr ++ MAX7219SendByte linePins data, ?_, ?_, ?_, ?_, ?_⟩
  · rw [write_unfold, List.append_assoc]
  · intro op hop
    rcases List.mem_append.1 hop with h | h
    · exact loop_no_load _ 8 (le_refl _) op h
    · exact loop_no_load _ 8 (le_refl _) op h
  · have h2 := sendByte_clocked ⟨(addr % 256).testBit 0, true, (s.set ⟨Line.LOAD, true⟩).load⟩
      data []
    rw [List.append_nil] at h2
    rw [sendByte_clocked, h2]
    simp [byteBitsMSB, clockedBits]
  · simp [loadRises, isLoadRise, Lines.set]
  · rw [run_write]

/-! ## Helper lemmas: the device -/

theorem shiftIn_eight (sh b : Nat) : shiftIn sh b 8 = (sh * 256 + b % 256) % 65536 := by
  simp only [shiftIn, Nat.toNat_testBit]
  norm_num
  omega

theorem device_run_append (d : Device) (t u : List LineOp) :
    Device.run d (t ++ u) = Device.run (Device.run d t) u := by
  simp [Device.run, List.foldl_append]

theorem device_run_cons (d : Device) (op : LineOp) (t : List LineOp) :
    Device.run d (op :: t) = Device.run (d.step op) t := rfl

theorem device_run_nil (d : Device) : Device.run d [] = d := rfl

theorem device_step_load (d : Device) (v : Bool) :
    Device.step d ⟨Line.LOAD, v⟩
      = ⟨⟨d.lines.data, d.lines.clk, v⟩, d.shift,
          if (!d.lines.load && v) = true then d.writes ++ [(d.shift / 256, d.shift % 256)]
          else d.writes⟩ := by
  simp [Device.step, isClkRise, isLoadRise, Lines.set]

theorem device_run_triple (d : Device) (v : Bool) :
    Device.run d [⟨Line.CLK, false⟩, ⟨Line.DATA, v⟩, ⟨Line.CLK, true⟩]
      = ⟨⟨v, true, d.lines.load⟩, (d.shift * 2 + v.toNat) % 65536, d.writes⟩ := by
  simp [Device.run, Device.step, isClkRise, isLoadRise, Lines.set]

theorem device_run_loop (b : Nat) (i : Nat) (hi : i ≤ 8) (d : Device) :
    Device.run d (MAX7219SendByte.loop linePins b i)
      = ⟨afterSend d.lines b i, shiftIn d.shift b i, d.writes⟩ := by
  induction i generalizing d with
  | zero => simp [MAX7219SendByte.loop, afterSend, shiftIn, Device.run]
  | succ i ih =>
    rw [loop_succ b i (by omega), device_run_append, device_run_triple, ih (by omega),
      ← afterSend_step]
    rfl

theorem device_run_sendByte (d : Device) (b : Nat) :
    Device.run d (MAX7219SendByte linePins b)
      = ⟨⟨(b % 256).testBit 0, true, d.lines.load⟩,
          (d.shift * 256 + b % 256) % 65536, d.writes⟩ := by
  unfold MAX7219SendByte
  rw [device_run_loop _ 8 (le_refl _), shiftIn_eight, Nat.mod_mod]
  rfl

/-- Frames latched by the leading `LOAD high` of a write: the stale shift
register content if LOAD was low, nothing if LOAD was already high. -/
theorem device_run_write (d : Device) (addr data : Nat) :
    Device.run d (MAX7219Write linePins addr data)
      = ⟨⟨(data % 256).testBit 0, true, true⟩, addr % 256 * 256 + data % 256,
          (if d.lines.load then d.writes
            else d.writes ++ [(d.shift / 256, d.shift % 256)])
            ++ [(addr % 256, data % 256)]⟩ := by
  rw [write_unfold, device_run_cons, device_run_append, device_run_append, device_run_sendByte,
    device_run_sendByte, device_run_cons, device_run_cons, device_run_nil, device_step_load,
    device_step_load, device_step_load]
  have hsh : ((d.shift * 256 + addr % 256) % 65536 * 256 + data % 256) % 65536
      = addr % 256 * 256 + data % 256 := by omega
  have h1 : ((addr % 256 * 256 + data % 256) / 256, (addr % 256 * 256 + data % 256) % 256)
      = (addr % 256, data % 256) := by
    rw [Prod.mk.injEq]; constructor <;> omega
  simp only [hsh, h1]
  cases d.lines.load <;> simp

/-! ## Helper lemmas: the display state -/

theorem lastWritten_append_single (ws : List (Nat × Nat)) (r v q : Nat) :
    lastWritten (ws ++ [(r, v)]) q = if r = q then some v else lastWritten ws q := by
  unfold lastWritten
  rw [List.reverse_append]
  simp only [List.reverse_cons, List.reverse_nil, List.nil_append, List.singleton_append,
    List.find?_cons]
  by_cases h : r = q
  · simp [h]
  · have hb : (r == q) = false := by simpa using h
    simp [h, hb]

/-- A register write issued while LOAD is high latches exactly its own frame. -/
theorem device_run_write_idle (d : Device) (hload : d.lines.load = true) (addr data : Nat) :
    Device.run d (MAX7219Write linePins addr data)
      = ⟨⟨(data % 256).testBit 0, true, true⟩, addr % 256 * 256 + data % 256,
          d.writes ++ [(addr % 256, data % 256)]⟩ := by
  rw [device_run_write, hload]
  simp

theorem clear_unfold {ε : Type} (P : Pins ε) :
    MAX7219Clear P
      = MAX7219Write P 0 0 ++ (MAX7219Write P 1 0 ++ (MAX7219Write P 2 0 ++ (MAX7219Write P 3 0
        ++ (MAX7219Write P 4 0 ++ (MAX7219Write P 5 0 ++ (MAX7219Write P 6 0
        ++ MAX7219Write P 7 0)))))) := by
  simp [MAX7219Clear, List.range, List.range.loop, List.flatMap]

theorem device_run_clear (d : Device) (hload : d.lines.load = true) :
    Device.run d (MAX7219Clear linePins)
      = ⟨⟨false, true, true⟩, 7 * 256,
          d.writes ++ [(0, 0), (1, 0), (2, 0), (3, 0), (4, 0), (5, 0), (6, 0), (7, 0)]⟩ := by
  rw [clear_unfold]
  simp only [device_run_append]
  rw [device_run_write_idle d hload]
  repeat rw [device_run_write_idle _ rfl]
  simp

/-- After `MAX7219Clear`, issued while LOAD is high, registers 0..7 hold 0x00 and
every other register holds what it held before. -/
theorem clear_regs (d : Device) (hload : d.lines.load = true) (r : Nat) :
    (Device.run d (MAX7219Clear linePins)).reg r = if r < 8 then some 0 else d.reg r := by
  rw [device_run_clear d hload]
  unfold Device.reg
  have h : d.writes ++ [(0, 0), (1, 0), (2, 0), (3, 0), (4, 0), (5, 0), (6, 0), (7, 0)]
      = d.writes ++ [(0, 0)] ++ [(1, 0)] ++ [(2, 0)] ++ [(3, 0)] ++ [(4, 0)] ++ [(5, 0)]
          ++ [(6, 0)] ++ [(7, 0)] := by simp
  simp only [h, lastWritten_append_single]
  split_ifs <;> first | rfl | omega

theorem avr8_displayChar_8_eight :
    Avr8.MAX7219DisplayChar linePins 8 56 0 = some (MAX7219Write linePins 8 0x7F) := by
  rfl

theorem avr32_displayChar_8_eight (sc : Bool) :
    Avr32.MAX7219DisplayChar linePins sc 8 56 0 = some (MAX7219Write linePins 8 0x7F) := by
  cases sc <;> rfl

theorem write_then_clear_reg (d : Device) (addr data : Nat) (haddr : 8 ≤ addr % 256) :
    (Device.run d (MAX7219Write linePins addr data ++ MAX7219Clear linePins)).reg (addr % 256)
      = some (data % 256) := by
  rw [device_run_append, clear_regs _ (by rw [device_run_write])]
  rw [if_neg (by omega), device_run_write]
  unfold Device.reg
  rw [lastWritten_append_single]
  simp

/-- A register below 8 written before `MAX7219Clear` holds 0x00 after it. -/
theorem write_then_clear_low (d : Device) (addr data : Nat) (haddr : addr % 256 < 8) :
    (Device.run d (MAX7219Write linePins addr data ++ MAX7219Clear linePins)).reg (addr % 256)
      = some 0x00 := by
  rw [device_run_append, clear_regs _ (by rw [device_run_write]), if_pos haddr]

/-! ## C3 -/

/-- C3 (the code departs from the claim): in both variants, displaying the
character 8 at digit position 8 and then calling `MAX7219Clear` leaves register 8
holding 0x7F, not 0x00, from every device state: `MAX7219Clear` writes registers
0..7 only. -/
theorem clear_leaves_register_eight (sc : Bool) (d : Device) :
    (∃ t, Avr8.MAX7219DisplayChar linePins 8 56 0 = some t
        ∧ (Device.run d (t ++ MAX7219Clear linePins)).reg 8 = some 0x7F)
      ∧ (∃ t, Avr32.MAX7219DisplayChar linePins sc 8 56 0 = some t
        ∧ (Device.run d (t ++ MAX7219Clear linePins)).reg 8 = some 0x7F) :=
  ⟨⟨_, avr8_displayChar_8_eight, write_then_clear_reg d 8 0x7F (by decide)⟩,
   ⟨_, avr32_displayChar_8_eight sc, write_then_clear_reg d 8 0x7F (by decide)⟩⟩

/-! ## Helper lemmas: the segment lookup -/

theorem toupper_idem (c : Int) : toupper (toupper c) = toupper c := by
  unfold toupper
  split_ifs <;> omega

theorem avr32_keys :
    Avr32.keys = [32, 48, 49, 50, 51, 52, 53, 54, 55, 56, 57, 65, 66, 67, 68, 69, 70, 46] := by
  decide

theorem scan_cons (x : Int) (a s : Int) (rest : List Avr32.Entry) :
    Avr32.MAX7219LookupCode.scan x (⟨a, s⟩ :: rest)
      = if a = 0 then some 0 else if x = a then some (toUChar s)
        else Avr32.MAX7219LookupCode.scan x rest := rfl

/-- The scan returns a value as soon as the table holds a terminating entry. -/
theorem scan_isSome (x : Int) (tbl : List Avr32.Entry) (hterm : ∃ e ∈ tbl, e.ascii = 0) :
    ∃ b, Avr32.MAX7219LookupCode.scan x tbl = some b := by
  induction tbl with
  | nil => simp at hterm
  | cons e rest ih =>
    obtain ⟨a, s⟩ := e
    rw [scan_cons]
    by_cases h0 : a = 0
    · exact ⟨0, by rw [if_pos h0]⟩
    · rw [if_neg h0]
      by_cases hx : x = a
      · exact ⟨_, by rw [if_pos hx]⟩
      · rw [if_neg hx]
        apply ih
        obtain ⟨e, he, hz⟩ := hterm
        rcases List.mem_cons.1 he with h | h
        · subst h; exact absurd hz h0
        · exact ⟨e, h, hz⟩

/-- What the scan returns is 0 or the pattern of an entry with the key sought. -/
theorem scan_some (x : Int) (tbl : List Avr32.Entry) (b : Nat)
    (h : Avr32.MAX7219LookupCode.scan x tbl = some b) :
    b = 0 ∨ ∃ e ∈ tbl, e.ascii = x ∧ b = toUChar e.segs := by
  induction tbl with
  | nil => simp [Avr32.MAX7219LookupCode.scan] at h
  | cons e rest ih =>
    obtain ⟨a, s⟩ := e
    rw [scan_cons] at h
    by_cases h0 : a = 0
    · rw [if_pos h0] at h
      exact Or.inl (Option.some.inj h).symm
    · rw [if_neg h0] at h
      by_cases hx : x = a
      · rw [if_pos hx] at h
        exact Or.inr ⟨⟨a, s⟩, List.mem_cons_self _ _, hx.symm, (Option.some.inj h).symm⟩
      · rw [if_neg hx] at h
        rcases ih h with h1 | ⟨e, he, h2⟩
        · exact Or.inl h1
        · exact Or.inr ⟨e, List.mem_cons_of_mem _ he, h2⟩

/-- A key that is not among the entries before the terminator is reported as 0. -/
theorem scan_absent (x : Int) (tbl : List Avr32.Entry) (hterm : ∃ e ∈ tbl, e.ascii = 0)
    (habs : x ∉ (tbl.map Avr32.Entry.ascii).takeWhile (fun a => a != 0)) :
    Avr32.MAX7219LookupCode.scan x tbl = some 0 := by
  induction tbl with
  | nil => simp at hterm
  | cons e rest ih =>
    obtain ⟨a, s⟩ := e
    rw [scan_cons]
    by_cases h0 : a = 0
    · rw [if_pos h0]
    · rw [if_neg h0]
      have hne : (a != 0) = true := by simpa using h0
      simp only [List.map_cons, List.takeWhile_cons, hne, if_true, List.mem_cons, not_or] at habs
      rw [if_neg habs.1]
      apply ih _ habs.2
      obtain ⟨e, he, hz⟩ := hterm
      rcases List.mem_cons.1 he with h | h
      · subst h; exact absurd hz h0
      · exact ⟨e, h, hz⟩

theorem segmentData_terminated (sc : Bool) : ∃ e ∈ Avr32.SegmentData sc, e.ascii = 0 :=
  ⟨⟨0, Avr32.toChar sc 0x00⟩, by simp [Avr32.SegmentData], rfl⟩

theorem segmentData_keys (sc : Bool) :
    ((Avr32.SegmentData sc).map Avr32.Entry.ascii).takeWhile (fun a => a != 0) = Avr32.keys := by
  cases sc <;> rfl

theorem lookupCode_isSome (sc : Bool) (c : Int) :
    ∃ b, Avr32.MAX7219LookupCode sc c = some b :=
  scan_isSome _ _ (segmentData_terminated sc)

/-! ## C4 -/

/-- C4: in the 32-bit variant, for every character `c` whose uppercase form is
not a key of the segment table, `MAX7219LookupCode` returns the blank pattern
0x00; the keys are space, the digits, `A`..`F` and the full stop. -/
theorem lookupCode_absent_is_blank (sc : Bool) (c : Int) (h : toupper c ∉ Avr32.keys) :
    Avr32.MAX7219LookupCode sc c = some 0x00
      ∧ Avr32.keys
          = [32, 48, 49, 50, 51, 52, 53, 54, 55, 56, 57, 65, 66, 67, 68, 69, 70, 46] := by
  refine ⟨?_, avr32_keys⟩
  unfold Avr32.MAX7219LookupCode
  exact scan_absent _ _ (segmentData_terminated sc) (by rw [segmentData_keys]; exact h)

/-- Witness for C4: the NUL character, `G` (71) and `g` (103) are not keys and
yield the blank pattern. -/
theorem lookupCode_absent_is_blank_witness :
    (toupper 0 ∉ Avr32.keys ∧ Avr32.MAX7219LookupCode true 0 = some 0x00)
      ∧ (toupper 71 ∉ Avr32.keys ∧ Avr32.MAX7219LookupCode true 71 = some 0x00)
      ∧ (toupper 103 ∉ Avr32.keys ∧ Avr32.MAX7219LookupCode false 103 = some 0x00) :=
  ⟨⟨by decide, (lookupCode_absent_is_blank true 0 (by decide)).1⟩,
   ⟨by decide, (lookupCode_absent_is_blank true 71 (by decide)).1⟩,
   ⟨by decide, (lookupCode_absent_is_blank false 103 (by decide)).1⟩⟩

/-! ## Helper lemmas: the 8-bit table -/

theorem avr8_segmentData_length : Avr8.SegmentData.length = 64 := rfl

/-- The table read of max7219.c yields a value exactly for the indices 0..63. -/
theorem pgm_read_none_iff (index : Int) :
    Avr8.pgm_read_byte_SegmentData index = none ↔ ¬ (0 ≤ index ∧ index < 64) := by
  unfold Avr8.pgm_read_byte_SegmentData
  by_cases h0 : 0 ≤ index
  · rw [if_pos h0, List.getElem?_eq_none_iff, avr8_segmentData_length]
    omega
  · rw [if_neg h0]
    simp only [true_iff]
    omega

theorem avr8_lookup_none_iff (c : Int) :
    Avr8.lookup c = none ↔ (toupper c < 32 ∨ 95 < toupper c) := by
  unfold Avr8.lookup
  rw [pgm_read_none_iff]
  omega

/-! ## C5 -/

/-- C5 (the code departs from the claim): in the 8-bit variant, for a character
whose uppercase form lies outside 32..95 the index `toupper(c) - 32` is outside the
64 entries of the table, so `MAX7219DisplayChar` reads outside the array and writes
no payload defined by the program, rather than the blank pattern. -/
theorem avr8_displayChar_unsupported {ε : Type} (P : Pins ε) (digit c : Int) (d : Nat)
    (h : toupper c < 32 ∨ 95 < toupper c) :
    Avr8.MAX7219DisplayChar P digit c d = none
      ∧ ¬ (0 ≤ toupper c - 32 ∧ toupper c - 32 < (Avr8.SegmentData.length : Int)) := by
  constructor
  · unfold Avr8.MAX7219DisplayChar
    rw [(avr8_lookup_none_iff c).2 h]
  · rw [avr8_segmentData_length]
    push_cast
    omega

/-- Witness for C5: the characters 96, `{` (123) and `~` (126). -/
theorem avr8_displayChar_unsupported_witness :
    ((toupper 126 < 32 ∨ 95 < toupper 126) ∧ Avr8.MAX7219DisplayChar linePins 1 126 0 = none)
      ∧ ((toupper 96 < 32 ∨ 95 < toupper 96) ∧ Avr8.MAX7219DisplayChar linePins 1 96 0 = none)
      ∧ ((toupper 123 < 32 ∨ 95 < toupper 123)
          ∧ Avr8.MAX7219DisplayChar linePins 1 123 0 = none) :=
  ⟨⟨by decide, (avr8_displayChar_unsupported linePins 1 126 0 (by decide)).1⟩,
   ⟨by decide, (avr8_displayChar_unsupported linePins 1 96 0 (by decide)).1⟩,
   ⟨by decide, (avr8_displayChar_unsupported linePins 1 123 0 (by decide)).1⟩⟩

/-! ## C6 -/

/-- C6: the segment lookup is case-insensitive in both variants: for every
character `c` the lookup of `c` equals the lookup of `toupper c`, and so does the
whole `MAX7219DisplayChar`; a lowercase letter (97..122) yields the pattern of its
uppercase letter `c - 32`, which the 8-bit table does hold. -/
theorem lookup_case_insensitive {ε : Type} (P : Pins ε) (sc : Bool) (c : Int) :
    Avr32.MAX7219LookupCode sc c = Avr32.MAX7219LookupCode sc (toupper c)
      ∧ Avr8.lookup c = Avr8.lookup (toupper c)
      ∧ (∀ digit d, Avr32.MAX7219DisplayChar P sc digit c d
            = Avr32.MAX7219DisplayChar P sc digit (toupper c) d)
      ∧ (∀ digit d, Avr8.MAX7219DisplayChar P digit c d
            = Avr8.MAX7219DisplayChar P digit (toupper c) d)
      ∧ (97 ≤ c ∧ c ≤ 122 →
          Avr32.MAX7219LookupCode sc c = Avr32.MAX7219LookupCode sc (c - 32)
            ∧ Avr8.lookup c = Avr8.lookup (c - 32)
            ∧ (Avr8.lookup c).isSome = true) := by
  have h32 : Avr32.MAX7219LookupCode sc c = Avr32.MAX7219LookupCode sc (toupper c) := by
    unfold Avr32.MAX7219LookupCode
    rw [toupper_idem]
  have h8 : Avr8.lookup c = Avr8.lookup (toupper c) := by
    unfold Avr8.lookup
    rw [toupper_idem]
  refine ⟨h32, h8, ?_, ?_, ?_⟩
  · intro digit d
    unfold Avr32.MAX7219DisplayChar
    rw [toupper_idem]
  · intro digit d
    unfold Avr8.MAX7219DisplayChar
    rw [h8]
  · intro hc
    have hup : toupper c = c - 32 := by
      unfold toupper
      rw [if_pos hc]
    refine ⟨by rw [h32, hup], by rw [h8, hup], ?_⟩
    rw [Option.isSome_iff_ne_none, Ne, avr8_lookup_none_iff, hup]
    omega

/-- Witness for C6: the letter `a` (97) against `A` (65). -/
theorem lookup_case_insensitive_witness :
    ((97 : Int) ≤ 97 ∧ (97 : Int) ≤ 122)
      ∧ Avr32.MAX7219LookupCode true 97 = Avr32.MAX7219LookupCode true (97 - 32)
      ∧ Avr8.lookup 97 = Avr8.lookup (97 - 32)
      ∧ (Avr8.lookup 97).isSome = true :=
  ⟨by decide, (lookup_case_insensitive linePins true 97).2.2.2.2 (by decide)⟩

/-! ## Helper lemmas: payloads -/

theorem toUChar_of_byte (p : Int) (hp : 0 ≤ p ∧ p < 256) : toUChar p = p.toNat := by
  unfold toUChar
  rw [Int.emod_eq_of_lt hp.1 hp.2]

theorem toUChar_lt (x : Int) : toUChar x < 256 := by
  unfold toUChar
  omega

theorem avr8_segmentData_bytes : ∀ b ∈ Avr8.SegmentData, b < 256 := by
  decide

theorem avr8_lookup_lt (c : Int) (byte : Nat) (h : Avr8.lookup c = some byte) : byte < 256 := by
  unfold Avr8.lookup Avr8.pgm_read_byte_SegmentData at h
  simp only at h
  split_ifs at h
  exact avr8_segmentData_bytes byte (List.getElem?_mem h)

theorem avr32_lookup_lt (sc : Bool) (c : Int) (byte : Nat)
    (h : Avr32.MAX7219LookupCode sc c = some byte) : byte < 256 := by
  rcases scan_some _ _ _ h with h0 | ⟨e, _, _, hb⟩
  · omega
  · rw [hb]; exact toUChar_lt _

theorem or_lt_256 (a b : Nat) (ha : a < 256) (hb : b < 256) : a ||| b < 256 :=
  Nat.or_lt_two_pow (n := 8) ha hb

theorem or_128_mod (b : Nat) : (b ||| 0x80) % 128 = b % 128 := by
  apply Nat.eq_of_testBit_eq
  intro j
  rw [show (128 : Nat) = 2 ^ 7 by norm_num, Nat.testBit_mod_two_pow, Nat.testBit_mod_two_pow,
    Nat.testBit_or, Nat.testBit_two_pow]
  by_cases hj : j < 7
  · have h7 : ¬ (7 = j) := by omega
    simp [hj, h7]
  · simp [hj]

theorem or_128_testBit (b : Nat) : (b ||| 0x80).testBit 7 = true := by
  rw [show (128 : Nat) = 2 ^ 7 by norm_num, Nat.testBit_or, Nat.testBit_two_pow_self]
  simp

theorem avr8_displayChar_eq {ε : Type} (P : Pins ε) (digit c : Int) (d byte : Nat)
    (h : Avr8.lookup c = some byte) :
    Avr8.MAX7219DisplayChar P digit c d
      = some (MAX7219Write P (toUChar digit) (byte ||| d % 256)) := by
  unfold Avr8.MAX7219DisplayChar
  rw [h]

theorem avr32_displayChar_eq {ε : Type} (P : Pins ε) (sc : Bool) (digit c : Int) (d byte : Nat)
    (h : Avr32.MAX7219LookupCode sc c = some byte) :
    Avr32.MAX7219DisplayChar P sc digit c d
      = some (MAX7219Write P (toUChar digit) (byte ||| d % 256)) := by
  have h2 : Avr32.MAX7219LookupCode sc (toupper c) = some byte := by
    unfold Avr32.MAX7219LookupCode at h ⊢
    rw [toupper_idem]; exact h
  unfold Avr32.MAX7219DisplayChar
  simp only [h2]

/-! ## C7 -/

/-- C7: for every digit position `p` (a byte), every supported character `c`
(one whose lookup yields a pattern `byte`) and dot flag `d`, `MAX7219DisplayChar`
produces exactly the trace of `MAX7219Write(p, byte | d)`, in both variants; on a
device whose LOAD is high this latches the single frame `(p, byte | d)`.  The
32-bit lookup yields a pattern for every character. -/
theorem displayChar_single_write {ε : Type} (P : Pins ε) (sc : Bool) (p c : Int) (d : Nat)
    (hp : 0 ≤ p ∧ p < 256) (hd : d < 256) :
    (∀ byte, Avr8.lookup c = some byte →
        Avr8.MAX7219DisplayChar P p c d = some (MAX7219Write P p.toNat (byte ||| d))
          ∧ ∀ dev : Device, dev.lines.load = true →
              (Device.run dev (MAX7219Write linePins p.toNat (byte ||| d))).writes
                = dev.writes ++ [(p.toNat, byte ||| d)])
      ∧ (∀ byte, Avr32.MAX7219LookupCode sc c = some byte →
        Avr32.MAX7219DisplayChar P sc p c d = some (MAX7219Write P p.toNat (byte ||| d))
          ∧ ∀ dev : Device, dev.lines.load = true →
              (Device.run dev (MAX7219Write linePins p.toNat (byte ||| d))).writes
                = dev.writes ++ [(p.toNat, byte ||| d)])
      ∧ (∃ byte, Avr32.MAX7219LookupCode sc c = some byte) := by
  have hframe : ∀ byte : Nat, byte < 256 → ∀ dev : Device, dev.lines.load = true →
      (Device.run dev (MAX7219Write linePins p.toNat (byte ||| d))).writes
        = dev.writes ++ [(p.toNat, byte ||| d)] := by
    intro byte hb dev hload
    rw [device_run_write_idle dev hload, Nat.mod_eq_of_lt (or_lt_256 _ _ hb hd),
      Nat.mod_eq_of_lt (by omega)]
  refine ⟨?_, ?_, lookupCode_isSome sc c⟩
  · intro byte h
    refine ⟨?_, hframe byte (avr8_lookup_lt c byte h)⟩
    rw [avr8_displayChar_eq P p c d byte h, toUChar_of_byte p hp, Nat.mod_eq_of_lt hd]
  · intro byte h
    refine ⟨?_, hframe byte (avr32_lookup_lt sc c byte h)⟩
    rw [avr32_displayChar_eq P sc p c d byte h, toUChar_of_byte p hp, Nat.mod_eq_of_lt hd]

/-- Witness for C7: `a` (97) and `A` (65) at digit 1 with the dot flag 0x80 both
produce the trace of `MAX7219Write(1, 0xF7)`, in both variants. -/
theorem displayChar_single_write_witness :
    ((0 : Int) ≤ 1 ∧ (1 : Int) < 256) ∧ (0x80 : Nat) < 256
      ∧ (0x77 ||| 0x80 : Nat) = 0xF7
      ∧ Avr8.MAX7219DisplayChar linePins 1 97 0x80 = some (MAX7219Write linePins 1 0xF7)
      ∧ Avr8.MAX7219DisplayChar linePins 1 65 0x80 = some (MAX7219Write linePins 1 0xF7)
      ∧ Avr32.MAX7219DisplayChar linePins true 1 97 0x80 = some (MAX7219Write linePins 1 0xF7)
      ∧ Avr32.MAX7219DisplayChar linePins true 1 65 0x80
          = some (MAX7219Write linePins 1 0xF7) :=
  ⟨by decide, by decide, by decide,
   ((displayChar_single_write linePins true 1 97 0x80 (by decide) (by decide)).1 0x77 rfl).1,
   ((displayChar_single_write linePins true 1 65 0x80 (by decide) (by decide)).1 0x77 rfl).1,
   ((displayChar_single_write linePins true 1 97 0x80 (by decide) (by decide)).2.1 0x77 rfl).1,
   ((displayChar_single_write linePins true 1 65 0x80 (by decide) (by decide)).2.1 0x77 rfl).1⟩

/-! ## C8 -/

/-- C8, counterexample: with the dot flag 0x01 and the character space, whose
pattern is 0x00, the 32-bit `MAX7219DisplayChar` writes the payload 0x01 to
register 1; its low seven bits differ from those of the pattern. -/
theorem dot_flag_low_bits_counterexample :
    Avr32.MAX7219LookupCode true 32 = some 0x00
      ∧ Avr32.MAX7219DisplayChar linePins true 1 32 0x01 = some (MAX7219Write linePins 1 0x01)
      ∧ (Device.run ⟨⟨false, true, true⟩, 0, []⟩ (MAX7219Write linePins 1 0x01)).writes
          = [(1, 0x01)]
      ∧ ¬ ((0x01 : Nat) % 128 = 0x00 % 128) := by
  refine ⟨rfl, rfl, ?_, by decide⟩
  rw [device_run_write_idle _ rfl]
  rfl

/-- C8, amended: the payload of `MAX7219DisplayChar` is the pattern ORed with the
dot flag, so for a dot flag whose low seven bits are zero (0x00 or 0x80, the two
documented values) the low seven bits of the payload are those of the pattern,
for every digit and every character with a pattern, in both variants. -/
theorem dot_flag_keeps_low_bits {ε : Type} (P : Pins ε) (sc : Bool) (digit c : Int) (d : Nat)
    (hd : d < 256) (hlow : d % 128 = 0) :
    (∀ byte, Avr8.lookup c = some byte →
        Avr8.MAX7219DisplayChar P digit c d
            = some (MAX7219Write P (toUChar digit) (byte ||| d))
          ∧ (byte ||| d) % 128 = byte % 128)
      ∧ (∀ byte, Avr32.MAX7219LookupCode sc c = some byte →
        Avr32.MAX7219DisplayChar P sc digit c d
            = some (MAX7219Write P (toUChar digit) (byte ||| d))
          ∧ (byte ||| d) % 128 = byte % 128) := by
  have hbits : ∀ byte : Nat, (byte ||| d) % 128 = byte % 128 := by
    intro byte
    have hcases : d = 0 ∨ d = 0x80 := by omega
    rcases hcases with h | h
    · rw [h, Nat.or_zero]
    · rw [h, or_128_mod]
  constructor
  · intro byte h
    refine ⟨?_, hbits byte⟩
    rw [avr8_displayChar_eq P digit c d byte h, Nat.mod_eq_of_lt hd]
  · intro byte h
    refine ⟨?_, hbits byte⟩
    rw [avr32_displayChar_eq P sc digit c d byte h, Nat.mod_eq_of_lt hd]

/-- Witness for the amended C8: the digit 8 (56) at position 1 with the dot
flag 0x80. -/
theorem dot_flag_keeps_low_bits_witness :
    (0x80 : Nat) < 256 ∧ (0x80 : Nat) % 128 = 0
      ∧ (Avr8.MAX7219DisplayChar linePins 1 56 0x80
            = some (MAX7219Write linePins (toUChar 1) (0x7F ||| 0x80))
          ∧ (0x7F ||| 0x80) % 128 = 0x7F % 128)
      ∧ (Avr32.MAX7219DisplayChar linePins false 1 56 0x80
            = some (MAX7219Write linePins (toUChar 1) (0x7F ||| 0x80))
          ∧ (0x7F ||| 0x80) % 128 = 0x7F % 128) :=
  ⟨by decide, by decide,
   (dot_flag_keeps_low_bits linePins false 1 56 0x80 (by decide) (by decide)).1 0x7F rfl,
   (dot_flag_keeps_low_bits linePins false 1 56 0x80 (by decide) (by decide)).2 0x7F rfl⟩

/-! ## C9 -/

/-- In the 32-bit table only the full stop has bit 7 set. -/
theorem avr32_segs_dp_clear (sc : Bool) :
    ∀ e ∈ Avr32.SegmentData sc, e.ascii ≠ 46 → toUChar e.segs < 128 := by
  cases sc <;> decide

/-- In the 32-bit variant `setDot` alone decides bit 7 of the payload, for every
character other than the full stop. -/
theorem avr32_setDot_decides (sc : Bool) (c : Int) (hc : toupper c ≠ 46) (byte : Nat)
    (h : Avr32.MAX7219LookupCode sc c = some byte) :
    (byte ||| 0x00).testBit 7 = false ∧ (byte ||| 0x80).testBit 7 = true := by
  refine ⟨?_, or_128_testBit byte⟩
  have hlt : byte < 128 := by
    rcases scan_some _ _ _ h with h0 | ⟨e, he, hkey, hb⟩
    · omega
    · rw [hb]
      exact avr32_segs_dp_clear sc e he (by rw [hkey]; exact hc)
  rw [Nat.or_zero]
  exact Nat.testBit_lt_two_pow (show byte < 2 ^ 7 by omega)

/-- C9 (the code departs from the claim): in the 8-bit variant the letter `J`
(74), which is not the full stop, has the pattern 0xF0 in the table, so
`MAX7219DisplayChar` with `setDot = 0x00` writes the payload 0xF0 to register 1,
whose bit 7 (dp) is set. -/
theorem avr8_setDot_zero_dp_set :
    Avr8.lookup 74 = some 0xF0
      ∧ Avr8.MAX7219DisplayChar linePins 1 74 0x00 = some (MAX7219Write linePins 1 0xF0)
      ∧ (Device.run ⟨⟨false, true, true⟩, 0, []⟩ (MAX7219Write linePins 1 0xF0)).writes
          = [(1, 0xF0)]
      ∧ (0xF0 : Nat).testBit 7 = true := by
  refine ⟨rfl, rfl, ?_, by decide⟩
  rw [device_run_write_idle _ rfl]
  rfl

/-! ## C10 -/

theorem brightness_mask (b : Int) :
    toUChar b &&& 0x0f < 16 ∧ ((toUChar b &&& 0x0f : Nat) : Int) = b % 16 := by
  have h : toUChar b &&& 0x0f = toUChar b % 16 :=
    Nat.and_pow_two_sub_one_eq_mod (toUChar b) 4
  rw [h]
  unfold toUChar
  omega

theorem init_ends_with_setBrightness {ε : Type} (P : Pins ε) :
    ∃ front, MAX7219Init P = front ++ MAX7219SetBrightness P INTENSITY_MAX :=
  ⟨_, rfl⟩

/-- After `MAX7219Init` LOAD is high, whatever the device state before. -/
theorem device_run_init_load (dev : Device) :
    (Device.run dev (MAX7219Init linePins)).lines.load = true := by
  obtain ⟨front, h⟩ := init_ends_with_setBrightness linePins
  rw [h, device_run_append]
  unfold MAX7219SetBrightness
  rw [device_run_write]

/-- C10: for every brightness input `b`, `MAX7219SetBrightness` produces exactly
the trace of one `MAX7219Write` to the intensity register 0x0A with the payload
`b & 0x0F`, which lies in 0..15 and is `b mod 16`; on a device whose LOAD is high
it latches that single frame, and after `MAX7219Init`, `MAX7219SetBrightness(20)`
latches `(0x0A, 0x04)`. -/
theorem setBrightness_single_write {ε : Type} (P : Pins ε) (b : Int) :
    MAX7219SetBrightness P b = MAX7219Write P 0x0A (toUChar b &&& 0x0f)
      ∧ toUChar b &&& 0x0f < 16
      ∧ ((toUChar b &&& 0x0f : Nat) : Int) = b % 16
      ∧ (∀ dev : Device, dev.lines.load = true →
          (Device.run dev (MAX7219SetBrightness linePins b)).writes
            = dev.writes ++ [(0x0A, toUChar b &&& 0x0f)])
      ∧ (∀ dev : Device,
          (Device.run dev (MAX7219Init linePins ++ MAX7219SetBrightness linePins 20)).writes
            = (Device.run dev (MAX7219Init linePins)).writes ++ [(0x0A, 0x04)]) := by
  have hframe : ∀ (x : Int) (dev : Device), dev.lines.load = true →
      (Device.run dev (MAX7219SetBrightness linePins x)).writes
        = dev.writes ++ [(0x0A, toUChar x &&& 0x0f)] := by
    intro x dev hload
    unfold MAX7219SetBrightness
    rw [device_run_write_idle dev hload]
    have hlt := (brightness_mask x).1
    simp only [REG_INTENSITY]
    rw [Nat.mod_eq_of_lt (show toUChar x &&& 0x0f < 256 by omega)]
  refine ⟨rfl, (brightness_mask b).1, (brightness_mask b).2, hframe b, ?_⟩
  intro dev
  rw [device_run_append, hframe 20 _ (device_run_init_load dev)]
  rfl

/-! ## Helper lemmas: sequences of register writes -/

theorem writeAll_nil {ε : Type} (P : Pins ε) : writeAll P [] = [] := rfl

theorem writeAll_cons {ε : Type} (P : Pins ε) (w : Nat × Nat) (ws : List (Nat × Nat)) :
    writeAll P (w :: ws) = MAX7219Write P w.1 w.2 ++ writeAll P ws := by
  simp [writeAll, List.flatMap_cons]

theorem writeAll_append {ε : Type} (P : Pins ε) (ws us : List (Nat × Nat)) :
    writeAll P (ws ++ us) = writeAll P ws ++ writeAll P us := by
  simp [writeAll, List.flatMap_append]

theorem writeAll_single {ε : Type} (P : Pins ε) (a v : Nat) :
    writeAll P [(a, v)] = MAX7219Write P a v := by
  simp [writeAll]

/-- Frames as the device latches them: both bytes reduced modulo 256. -/
theorem device_run_writeAll (ws : List (Nat × Nat)) (dev : Device)
    (hload : dev.lines.load = true) :
    (Device.run dev (writeAll linePins ws)).writes
        = dev.writes ++ ws.map (fun w => (w.1 % 256, w.2 % 256))
      ∧ (Device.run dev (writeAll linePins ws)).lines.load = true := by
  induction ws generalizing dev with
  | nil => simp [writeAll_nil, device_run_nil, hload]
  | cons w ws ih =>
    rw [writeAll_cons, device_run_append]
    have h := ih (Device.run dev (MAX7219Write linePins w.1 w.2))
      (by rw [device_run_write])
    rw [h.1, h.2, device_run_write_idle dev hload]
    simp

theorem lastWritten_append (ws us : List (Nat × Nat)) (r : Nat) :
    lastWritten (ws ++ us) r = (lastWritten us r).or (lastWritten ws r) := by
  unfold lastWritten
  rw [List.reverse_append, List.find?_append]
  cases List.find? (fun w => w.1 == r) us.reverse <;> simp

theorem clear_writeAll {ε : Type} (P : Pins ε) :
    MAX7219Clear P
      = writeAll P [(0, 0), (1, 0), (2, 0), (3, 0), (4, 0), (5, 0), (6, 0), (7, 0)] := by
  simp [MAX7219Clear, writeAll, List.range, List.range.loop, List.flatMap]

/-- The register writes of `MAX7219Init`, after the pin set-up. -/
theorem init_writeAll {ε : Type} (P : Pins ε) :
    MAX7219Init P
      = P.configure ++ writeAll P [(0x0b, 7), (0x09, 0x00), (0x0c, 1), (0x0f, 0),
          (0, 0x00), (1, 0x00), (2, 0x00), (3, 0x00), (4, 0x00), (5, 0x00), (6, 0x00),
          (7, 0x00), (0x0a, 0x0f)] := by
  have h := clear_writeAll P
  unfold MAX7219Init MAX7219ShutdownStop MAX7219DisplayTestStop MAX7219SetBrightness
  rw [h]
  simp only [writeAll, List.flatMap_cons, List.flatMap_nil, List.append_nil, List.append_assoc]
  rfl

/-! ## C11 -/

/-- C11: for every flag byte `f`, `MAX7219DisplayL123` produces exactly the trace of
one `MAX7219Write` to register 3 with the payload `(f * 16) mod 256`, whose low
nibble is zero and whose upper nibble is the low nibble of `f`; on a device whose
LOAD is high it latches that single frame; with `L1 | L2 | L3` the payload is
0x70. -/
theorem displayL123_single_write {ε : Type} (P : Pins ε) (f : Int) :
    MAX7219DisplayL123 P f = MAX7219Write P 3 (toUChar (f * 16))
      ∧ ((toUChar (f * 16) : Nat) : Int) = (f * 16) % 256
      ∧ toUChar (f * 16) % 16 = 0
      ∧ ((toUChar (f * 16) / 16 : Nat) : Int) = f % 16
      ∧ (∀ dev : Device, dev.lines.load = true →
          (Device.run dev (MAX7219DisplayL123 linePins f)).writes
            = dev.writes ++ [(3, toUChar (f * 16))])
      ∧ Int.lor (Int.lor L1 L2) L3 = 0x07
      ∧ MAX7219DisplayL123 P (Int.lor (Int.lor L1 L2) L3) = MAX7219Write P 3 0x70 := by
  refine ⟨rfl, ?_, ?_, ?_, ?_, by decide, rfl⟩
  · unfold toUChar; omega
  · unfold toUChar; omega
  · unfold toUChar; omega
  · intro dev hload
    unfold MAX7219DisplayL123
    rw [device_run_write_idle dev hload, Nat.mod_eq_of_lt (toUChar_lt _)]

/-! ## Helper lemmas: register writes from any device state -/

/-- A non-empty sequence of register writes from any device state: the leading
`LOAD high` latches the stale shift register if LOAD was low, then every write
latches its own frame. -/
theorem device_run_writeAll_any (w : Nat × Nat) (ws : List (Nat × Nat)) (dev : Device) :
    (Device.run dev (writeAll linePins (w :: ws))).writes
        = (if dev.lines.load then dev.writes
            else dev.writes ++ [(dev.shift / 256, dev.shift % 256)])
          ++ (w :: ws).map (fun w => (w.1 % 256, w.2 % 256))
      ∧ (Device.run dev (writeAll linePins (w :: ws))).lines.load = true := by
  rw [writeAll_cons, device_run_append]
  have h := device_run_writeAll ws (Device.run dev (MAX7219Write linePins w.1 w.2))
    (by rw [device_run_write])
  rw [h.1, h.2, device_run_write]
  simp

/-! ## Helper lemmas: the platform traces of the shared operations -/

theorem avr8_readsAs : Avr8.pins.ReadsAs Avr8.toLineOp := by
  refine ⟨rfl, rfl, rfl, rfl, rfl, rfl, ?_⟩
  intro e he
  simp only [Avr8.pins, List.mem_cons, List.mem_singleton, List.not_mem_nil, or_false] at he
  rcases he with h | h | h <;> subst h <;> rfl

theorem avr32_readsAs : Avr32.pins.ReadsAs Avr32.toLineOp := by
  refine ⟨rfl, rfl, rfl, rfl, rfl, rfl, ?_⟩
  intro e he
  simp only [Avr32.pins, List.mem_cons, List.mem_singleton, List.not_mem_nil, or_false] at he
  rcases he with h | h | h <;> subst h <;> rfl

theorem write_lines {ε : Type} (P : Pins ε) (f : ε → Option LineOp) (hf : P.ReadsAs f)
    (addr data : Nat) :
    (MAX7219Write P addr data).filterMap f = MAX7219Write linePins addr data :=
  write_filterMap P f hf.1 hf.2.1 hf.2.2.1 hf.2.2.2.1 hf.2.2.2.2.1 hf.2.2.2.2.2.1 addr data

theorem writeAll_lines {ε : Type} (P : Pins ε) (f : ε → Option LineOp) (hf : P.ReadsAs f)
    (ws : List (Nat × Nat)) :
    (writeAll P ws).filterMap f = writeAll linePins ws := by
  induction ws with
  | nil => rfl
  | cons w ws ih => rw [writeAll_cons, writeAll_cons, List.filterMap_append, ih, write_lines P f hf]

theorem configure_lines {ε : Type} (P : Pins ε) (f : ε → Option LineOp) (hf : P.ReadsAs f) :
    P.configure.filterMap f = [] := by
  rw [List.filterMap_eq_nil_iff]
  exact hf.2.2.2.2.2.2

theorem clear_lines {ε : Type} (P : Pins ε) (f : ε → Option LineOp) (hf : P.ReadsAs f) :
    (MAX7219Clear P).filterMap f = MAX7219Clear linePins := by
  rw [clear_writeAll, clear_writeAll, writeAll_lines P f hf]

theorem init_lines {ε : Type} (P : Pins ε) (f : ε → Option LineOp) (hf : P.ReadsAs f) :
    (MAX7219Init P).filterMap f = MAX7219Init linePins := by
  rw [init_writeAll, init_writeAll, List.filterMap_append, configure_lines P f hf,
    writeAll_lines P f hf]
  rfl

/-! ## C12 -/

/-- C12: from any device state, after `MAX7219Init` (the same line operations in
both platform files) the value last written to each control register is:
scan-limit (0x0B) 7, decode-mode (0x09) 0x00, shutdown (0x0C) 1, display-test
(0x0F) 0, intensity (0x0A) 0x0F. -/
theorem init_control_registers (dev : Device) :
    (MAX7219Init Avr8.pins).filterMap Avr8.toLineOp = MAX7219Init linePins
      ∧ (MAX7219Init Avr32.pins).filterMap Avr32.toLineOp = MAX7219Init linePins
      ∧ (Device.run dev (MAX7219Init linePins)).reg REG_SCAN_LIMIT = some 7
      ∧ (Device.run dev (MAX7219Init linePins)).reg REG_DECODE = some 0x00
      ∧ (Device.run dev (MAX7219Init linePins)).reg REG_SHUTDOWN = some 1
      ∧ (Device.run dev (MAX7219Init linePins)).reg REG_DISPLAY_TEST = some 0
      ∧ (Device.run dev (MAX7219Init linePins)).reg REG_INTENSITY = some 0x0f
      ∧ REG_SCAN_LIMIT = 0x0B ∧ REG_DECODE = 0x09 ∧ REG_SHUTDOWN = 0x0C
      ∧ REG_DISPLAY_TEST = 0x0F ∧ REG_INTENSITY = 0x0A := by
  have hreg : ∀ r : Nat, (Device.run dev (MAX7219Init linePins)).reg r
      = (lastWritten [(0x0b, 7), (0x09, 0x00), (0x0c, 1), (0x0f, 0),
          (0, 0x00), (1, 0x00), (2, 0x00), (3, 0x00), (4, 0x00), (5, 0x00), (6, 0x00),
          (7, 0x00), (0x0a, 0x0f)] r).or
          (lastWritten (if dev.lines.load then dev.writes
            else dev.writes ++ [(dev.shift / 256, dev.shift % 256)]) r) := by
    intro r
    unfold Device.reg
    rw [init_writeAll]
    show lastWritten (Device.run dev ([] ++ writeAll linePins _)).writes r = _
    rw [List.nil_append, (device_run_writeAll_any _ _ dev).1, lastWritten_append]
    rfl
  refine ⟨init_lines _ _ avr8_readsAs, init_lines _ _ avr32_readsAs, ?_, ?_, ?_, ?_, ?_,
    rfl, rfl, rfl, rfl, rfl⟩ <;> rw [hreg] <;> rfl

/-! ## C13 -/

/-- C13: the mode operations write the device-defined payloads: the trace of
`MAX7219ShutdownStart` is that of `MAX7219Write(0x0C, 0)`, of `MAX7219ShutdownStop`
that of `MAX7219Write(0x0C, 1)`, of `MAX7219DisplayTestStart` that of
`MAX7219Write(0x0F, 1)` and of `MAX7219DisplayTestStop` that of
`MAX7219Write(0x0F, 0)`, for the primitives of either platform; on a device whose
LOAD is high each latches exactly that frame. -/
theorem mode_operations_payloads {ε : Type} (P : Pins ε) :
    MAX7219ShutdownStart P = MAX7219Write P 0x0C 0
      ∧ MAX7219ShutdownStop P = MAX7219Write P 0x0C 1
      ∧ MAX7219DisplayTestStart P = MAX7219Write P 0x0F 1
      ∧ MAX7219DisplayTestStop P = MAX7219Write P 0x0F 0
      ∧ (∀ dev : Device, dev.lines.load = true →
          (Device.run dev (MAX7219ShutdownStart linePins)).writes = dev.writes ++ [(0x0C, 0)]
            ∧ (Device.run dev (MAX7219ShutdownStop linePins)).writes
                = dev.writes ++ [(0x0C, 1)]
            ∧ (Device.run dev (MAX7219DisplayTestStart linePins)).writes
                = dev.writes ++ [(0x0F, 1)]
            ∧ (Device.run dev (MAX7219DisplayTestStop linePins)).writes
                = dev.writes ++ [(0x0F, 0)]) := by
  refine ⟨rfl, rfl, rfl, rfl, ?_⟩
  intro dev hload
  unfold MAX7219ShutdownStart MAX7219ShutdownStop MAX7219DisplayTestStart
    MAX7219DisplayTestStop
  simp only [device_run_write_idle dev hload]
  exact ⟨rfl, rfl, rfl, rfl⟩

/-! ## C15 -/

/-- C15: both segment tables cover the minimum character set and agree on it:
for space, the digits, `A`..`F` and the full stop, the 8-bit table entry at index
`c - 32` and the pattern the 32-bit lookup returns for `c` are the same listed
value (space 0x00, `0` 0x7E, ... `F` 0x47, full stop 0x80); these characters are
exactly the keys of the 32-bit table. -/
theorem tables_agree_on_minimum_set (sc : Bool) :
    (∀ p ∈ [((32 : Int), 0x00), (48, 0x7E), (49, 0x30), (50, 0x6D), (51, 0x79), (52, 0x33),
          (53, 0x5B), (54, 0x5F), (55, 0x70), (56, 0x7F), (57, 0x7B), (65, 0x77), (66, 0x1F),
          (67, 0x4E), (68, 0x3D), (69, 0x4F), (70, 0x47), (46, 0x80)],
        Avr8.pgm_read_byte_SegmentData (p.1 - 32) = some p.2
          ∧ Avr8.lookup p.1 = some p.2
          ∧ Avr32.MAX7219LookupCode sc p.1 = some p.2)
      ∧ Avr32.keys
          = [32, 48, 49, 50, 51, 52, 53, 54, 55, 56, 57, 65, 66, 67, 68, 69, 70, 46] := by
  refine ⟨?_, avr32_keys⟩
  cases sc <;> decide

/-! ## C16 -/

/-- C16: in the 32-bit variant, for every entry of the segment table before the
terminating entry, `MAX7219LookupCode` of the entry's key returns the entry's
pattern as an unsigned byte; the keys are pairwise distinct; and the full stop
yields 0x80 whether `char` is signed (the pattern is stored as -128) or unsigned
(stored as 128). -/
theorem lookupCode_returns_entry (sc : Bool) :
    (∀ e ∈ (Avr32.SegmentData sc).takeWhile (fun e => e.ascii != 0),
        Avr32.MAX7219LookupCode sc e.ascii = some (toUChar e.segs))
      ∧ ((Avr32.SegmentData sc).takeWhile (fun e => e.ascii != 0)).map
            (fun e => (e.ascii, toUChar e.segs))
          = [(32, 0x00), (48, 0x7e), (49, 0x30), (50, 0x6d), (51, 0x79), (52, 0x33),
              (53, 0x5b), (54, 0x5f), (55, 0x70), (56, 0x7f), (57, 0x7b), (65, 0x77),
              (66, 0x1f), (67, 0x4e), (68, 0x3d), (69, 0x4f), (70, 0x47), (46, 0x80)]
      ∧ Avr32.keys.Nodup
      ∧ Avr32.MAX7219LookupCode sc 46 = some 0x80
      ∧ Avr32.toChar true 0x80 = -128 ∧ Avr32.toChar false 0x80 = 128 := by
  refine ⟨?_, ?_, by decide, ?_, by decide, by decide⟩
  · cases sc <;> decide
  · cases sc <;> decide
  · cases sc <;> rfl

/-! ## Helper lemmas: the two lookups on the common characters -/

theorem lookups_agree_on_keys (sc : Bool) :
    ∀ k ∈ Avr32.keys, Avr8.pgm_read_byte_SegmentData (k - 32)
      = Avr32.MAX7219LookupCode.scan k (Avr32.SegmentData sc) := by
  rw [avr32_keys]
  cases sc <;> decide

theorem lookups_agree (sc : Bool) (c : Int) (hc : toupper c ∈ Avr32.keys) :
    Avr8.lookup c = Avr32.MAX7219LookupCode sc c :=
  lookups_agree_on_keys sc (toupper c) hc

theorem avr32_displayChar_lookup {ε : Type} (P : Pins ε) (sc : Bool) (digit c : Int) (d : Nat) :
    Avr32.MAX7219DisplayChar P sc digit c d
      = (Avr32.MAX7219LookupCode sc c).map
          (fun byte => MAX7219Write P (toUChar digit) (byte ||| d % 256)) := by
  obtain ⟨byte, h⟩ := lookupCode_isSome sc c
  rw [avr32_displayChar_eq P sc digit c d byte h, h]
  rfl

theorem avr8_displayChar_lookup {ε : Type} (P : Pins ε) (digit c : Int) (d : Nat) :
    Avr8.MAX7219DisplayChar P digit c d
      = (Avr8.lookup c).map (fun byte => MAX7219Write P (toUChar digit) (byte ||| d % 256)) := by
  unfold Avr8.MAX7219DisplayChar
  cases Avr8.lookup c <;> rfl

/-! ## C14 -/

/-- C14, counterexample: for the letter `G` (71) at digit 1 without dot, the
line operations of the 8-bit `MAX7219DisplayChar` (payload 0x7C from its table)
differ from those of the 32-bit one (payload 0x00, the letter is no key of its
table), whether `char` is signed or not. -/
theorem variants_differ_on_letter_G_counterexample :
    (Avr8.MAX7219DisplayChar Avr8.pins 1 71 0).map (List.filterMap Avr8.toLineOp)
        = some (MAX7219Write linePins 1 0x7C)
      ∧ (Avr32.MAX7219DisplayChar Avr32.pins true 1 71 0).map (List.filterMap Avr32.toLineOp)
        = some (MAX7219Write linePins 1 0x00)
      ∧ (Avr32.MAX7219DisplayChar Avr32.pins false 1 71 0).map (List.filterMap Avr32.toLineOp)
        = some (MAX7219Write linePins 1 0x00)
      ∧ (Avr8.MAX7219DisplayChar Avr8.pins 1 71 0).map (List.filterMap Avr8.toLineOp)
        ≠ (Avr32.MAX7219DisplayChar Avr32.pins true 1 71 0).map
            (List.filterMap Avr32.toLineOp) := by
  have h8 : (Avr8.MAX7219DisplayChar Avr8.pins 1 71 0).map (List.filterMap Avr8.toLineOp)
      = some (MAX7219Write linePins 1 0x7C) := by
    rw [avr8_displayChar_eq Avr8.pins 1 71 0 0x7C rfl, Option.map_some',
      write_lines _ _ avr8_readsAs]
    rfl
  have h32 : ∀ sc, (Avr32.MAX7219DisplayChar Avr32.pins sc 1 71 0).map
      (List.filterMap Avr32.toLineOp) = some (MAX7219Write linePins 1 0x00) := by
    intro sc
    rw [avr32_displayChar_eq Avr32.pins sc 1 71 0 0x00 (by cases sc <;> rfl), Option.map_some',
      write_lines _ _ avr32_readsAs]
    rfl
  refine ⟨h8, h32 true, h32 false, ?_⟩
  rw [h8, h32 true]
  decide

/-- C14, amended: read as line operations, the 8-bit and the 32-bit variant
produce the same sequence for `MAX7219Init`, `MAX7219Write`, the shutdown and
display-test operations, `MAX7219SetBrightness`, `MAX7219Clear` and
`MAX7219DisplayL123`, for every argument value, and for `MAX7219DisplayChar`
whenever the uppercase form of the character is a key of the 32-bit table. -/
theorem variants_same_line_operations (sc : Bool) :
    (MAX7219Init Avr8.pins).filterMap Avr8.toLineOp
        = (MAX7219Init Avr32.pins).filterMap Avr32.toLineOp
      ∧ (∀ reg data, (MAX7219Write Avr8.pins reg data).filterMap Avr8.toLineOp
          = (MAX7219Write Avr32.pins reg data).filterMap Avr32.toLineOp)
      ∧ (MAX7219ShutdownStart Avr8.pins).filterMap Avr8.toLineOp
          = (MAX7219ShutdownStart Avr32.pins).filterMap Avr32.toLineOp
      ∧ (MAX7219ShutdownStop Avr8.pins).filterMap Avr8.toLineOp
          = (MAX7219ShutdownStop Avr32.pins).filterMap Avr32.toLineOp
      ∧ (MAX7219DisplayTestStart Avr8.pins).filterMap Avr8.toLineOp
          = (MAX7219DisplayTestStart Avr32.pins).filterMap Avr32.toLineOp
      ∧ (MAX7219DisplayTestStop Avr8.pins).filterMap Avr8.toLineOp
          = (MAX7219DisplayTestStop Avr32.pins).filterMap Avr32.toLineOp
      ∧ (∀ brightness, (MAX7219SetBrightness Avr8.pins brightness).filterMap Avr8.toLineOp
          = (MAX7219SetBrightness Avr32.pins brightness).filterMap Avr32.toLineOp)
      ∧ (MAX7219Clear Avr8.pins).filterMap Avr8.toLineOp
          = (MAX7219Clear Avr32.pins).filterMap Avr32.toLineOp
      ∧ (∀ bits, (MAX7219DisplayL123 Avr8.pins bits).filterMap Avr8.toLineOp
          = (MAX7219DisplayL123 Avr32.pins bits).filterMap Avr32.toLineOp)
      ∧ (∀ digit c d, toupper c ∈ Avr32.keys →
          (Avr8.MAX7219DisplayChar Avr8.pins digit c d).map (List.filterMap Avr8.toLineOp)
            = (Avr32.MAX7219DisplayChar Avr32.pins sc digit c d).map
                (List.filterMap Avr32.toLineOp)) := by
  have hw : ∀ reg data, (MAX7219Write Avr8.pins reg data).filterMap Avr8.toLineOp
      = (MAX7219Write Avr32.pins reg data).filterMap Avr32.toLineOp := by
    intro reg data
    rw [write_lines _ _ avr8_readsAs, write_lines _ _ avr32_readsAs]
  refine ⟨?_, hw, hw _ _, hw _ _, hw _ _, hw _ _, fun _ => hw _ _, ?_, fun _ => hw _ _, ?_⟩
  · rw [init_lines _ _ avr8_readsAs, init_lines _ _ avr32_readsAs]
  · rw [clear_lines _ _ avr8_readsAs, clear_lines _ _ avr32_readsAs]
  · intro digit c d hc
    rw [avr8_displayChar_lookup, avr32_displayChar_lookup, lookups_agree sc c hc]
    cases Avr32.MAX7219LookupCode sc c with
    | none => rfl
    | some byte =>
      simp only [Option.map_some']
      rw [hw]

/-- Witness for the amended C14: the letter `A` (65) at digit 1 with the dot. -/
theorem variants_same_line_operations_witness :
    toupper 65 ∈ Avr32.keys
      ∧ (Avr8.MAX7219DisplayChar Avr8.pins 1 65 0x80).map (List.filterMap Avr8.toLineOp)
          = (Avr32.MAX7219DisplayChar Avr32.pins true 1 65 0x80).map
              (List.filterMap Avr32.toLineOp) :=
  ⟨by decide, (variants_same_line_operations true).2.2.2.2.2.2.2.2.2 1 65 0x80 (by decide)⟩

/-! ## C17 -/

theorem sendByte_clockFirst (b : Nat) :
    MAX7219SendByte linePins b = clockFirstSerialize b := by
  have hbit : ∀ i, i < 8 → (b % 256).testBit i = b.testBit i := by
    intro i hi
    rw [show (256 : Nat) = 2 ^ 8 by norm_num, Nat.testBit_mod_two_pow]
    simp [hi]
  unfold MAX7219SendByte
  rw [loop_succ _ 7 (by omega), loop_succ _ 6 (by omega), loop_succ _ 5 (by omega),
    loop_succ _ 4 (by omega), loop_succ _ 3 (by omega), loop_succ _ 2 (by omega),
    loop_succ _ 1 (by omega), loop_succ _ 0 (by omega)]
  rw [hbit 7 (by omega), hbit 6 (by omega), hbit 5 (by omega), hbit 4 (by omega),
    hbit 3 (by omega), hbit 2 (by omega), hbit 1 (by omega), hbit 0 (by omega)]
  rfl

theorem clockedBits_dataFirst (s : Lines) (v : Bool) (t : List LineOp) :
    clockedBits s (⟨Line.DATA, v⟩ :: ⟨Line.CLK, false⟩ :: ⟨Line.CLK, true⟩ :: t)
      = v :: clockedBits ⟨v, true, s.load⟩ t := by
  simp [clockedBits, isClkRise, Lines.set]

theorem specSerialize_clocked (s : Lines) (b : Nat) (rest : List LineOp) :
    clockedBits s (specSerialize b ++ rest)
      = byteBitsMSB b ++ clockedBits ⟨b.testBit 0, true, s.load⟩ rest := by
  simp only [specSerialize, List.flatMap_cons, List.flatMap_nil, List.append_nil,
    List.cons_append, List.nil_append, clockedBits_dataFirst, byteBitsMSB]

/-- C17, counterexample: for the frame (0x0A, 0x04) the line operations of
`MAX7219Write` are not the sequence the specification lists; the second operation
is `CLOCK low` in the code and `DATA low` in the specification. -/
theorem write_not_spec_order_counterexample :
    MAX7219Write linePins 0x0A 0x04 ≠ specWriteRegister 0x0A 0x04
      ∧ (MAX7219Write linePins 0x0A 0x04)[1]? = some ⟨Line.CLK, false⟩
      ∧ (specWriteRegister 0x0A 0x04)[1]? = some ⟨Line.DATA, false⟩ := by
  decide

/-- C17, amended: for every `addr` and `data`, the line operations of
`MAX7219Write`, the same in both platform files, are exactly: LOAD high; then for
each bit of `addr` from bit 7 down to bit 0 and then each bit of `data` from bit 7
down to bit 0: CLOCK low, DATA set to the bit value, CLOCK high; then LOAD low,
LOAD high.  The sequence of the specification, with DATA set before CLOCK low,
puts the same bits on DATA at the rising edges of CLOCK. -/
theorem write_line_sequence (addr data : Nat) :
    (MAX7219Write Avr8.pins addr data).filterMap Avr8.toLineOp = MAX7219Write linePins addr data
      ∧ (MAX7219Write Avr32.pins addr data).filterMap Avr32.toLineOp
          = MAX7219Write linePins addr data
      ∧ MAX7219Write linePins addr data
          = [⟨Line.LOAD, true⟩] ++ clockFirstSerialize addr ++ clockFirstSerialize data
              ++ [⟨Line.LOAD, false⟩, ⟨Line.LOAD, true⟩]
      ∧ (∀ s : Lines, addr < 256 → data < 256 →
          clockedBits s (specWriteRegister addr data)
            = clockedBits s (MAX7219Write linePins addr data)) := by
  refine ⟨avr8_write_lines addr data, avr32_write_lines addr data, ?_, ?_⟩
  · rw [← sendByte_clockFirst, ← sendByte_clockFirst]
    rfl
  · intro s haddr hdata
    have hw := write_clocked s addr data
    rw [Nat.mod_eq_of_lt haddr, Nat.mod_eq_of_lt hdata] at hw
    rw [hw]
    unfold specWriteRegister
    rw [List.append_assoc, List.append_assoc, List.singleton_append, clockedBits_load,
      specSerialize_clocked, specSerialize_clocked, clockedBits_load, clockedBits_load]
    simp [clockedBits]

/-! ## C18 -/

/-- C18: `MAX7219Init` issues, after the pin set-up of the platform, exactly 13
register writes in this order: (0x0B, 7), (0x09, 0x00), (0x0C, 1), (0x0F, 0),
then (0, 0x00), (1, 0x00), ..., (7, 0x00), then (0x0A, 0x0F); read as line
operations both platform files perform this sequence, and a device whose LOAD is
high latches exactly these 13 frames. -/
theorem init_write_sequence {ε : Type} (P : Pins ε) :
    MAX7219Init P
        = P.configure ++ writeAll P [(0x0B, 7), (0x09, 0x00), (0x0C, 1), (0x0F, 0),
            (0, 0x00), (1, 0x00), (2, 0x00), (3, 0x00), (4, 0x00), (5, 0x00), (6, 0x00),
            (7, 0x00), (0x0A, 0x0F)]
      ∧ [((0x0B : Nat), (7 : Nat)), (0x09, 0x00), (0x0C, 1), (0x0F, 0),
            (0, 0x00), (1, 0x00), (2, 0x00), (3, 0x00), (4, 0x00), (5, 0x00), (6, 0x00),
            (7, 0x00), (0x0A, 0x0F)].length = 13
      ∧ (MAX7219Init Avr8.pins).filterMap Avr8.toLineOp = MAX7219Init linePins
      ∧ (MAX7219Init Avr32.pins).filterMap Avr32.toLineOp = MAX7219Init linePins
      ∧ (∀ dev : Device, dev.lines.load = true →
          (Device.run dev (MAX7219Init linePins)).writes
            = dev.writes ++ [(0x0B, 7), (0x09, 0x00), (0x0C, 1), (0x0F, 0),
                (0, 0x00), (1, 0x00), (2, 0x00), (3, 0x00), (4, 0x00), (5, 0x00), (6, 0x00),
                (7, 0x00), (0x0A, 0x0F)]) := by
  refine ⟨init_writeAll P, rfl, init_lines _ _ avr8_readsAs, init_lines _ _ avr32_readsAs, ?_⟩
  intro dev hload
  rw [init_writeAll]
  show (Device.run dev ([] ++ writeAll linePins _)).writes = _
  rw [List.nil_append, (device_run_writeAll _ dev hload).1]
  rfl

/-! ## Helper lemmas: the display state after one write -/

theorem edges_cons (s : Lines) (op : LineOp) (t : List LineOp) :
    edges s (op :: t)
      = (if isClkRise s op then [Edge.clk] else if isLoadRise s op then [Edge.load] else [])
          ++ edges (s.set op) t := rfl

theorem edges_append (s : Lines) (t u : List LineOp) :
    edges s (t ++ u) = edges s t ++ edges (Lines.run s t) u := by
  induction t generalizing s with
  | nil => rfl
  | cons op t ih =>
    rw [List.cons_append, edges_cons, edges_cons, ih, run_cons, List.append_assoc]

theorem edges_triple (s : Lines) (v : Bool) :
    edges s [⟨Line.CLK, false⟩, ⟨Line.DATA, v⟩, ⟨Line.CLK, true⟩] = [Edge.clk] := by
  simp [edges, isClkRise, isLoadRise, Lines.set]

theorem edges_loop (b i : Nat) (hi : i ≤ 8) (s : Lines) :
    edges s (MAX7219SendByte.loop linePins b i) = List.replicate i Edge.clk := by
  induction i generalizing s with
  | zero => rfl
  | succ i ih =>
    rw [loop_succ b i (by omega), edges_append, edges_triple, ih (by omega), List.replicate_succ]
    rfl

theorem edges_sendByte (s : Lines) (b : Nat) :
    edges s (MAX7219SendByte linePins b) = List.replicate 8 Edge.clk :=
  edges_loop _ 8 (le_refl _) s

/-- One register write issued while LOAD is high: 16 CLK rising edges, then one
LOAD rising edge. -/
theorem edges_write (s : Lines) (hload : s.load = true) (addr data : Nat) :
    edges s (MAX7219Write linePins addr data) = frameEdges := by
  rw [write_unfold]
  have h1 : edges s [(⟨Line.LOAD, true⟩ : LineOp)] = [] := by
    simp [edges, isClkRise, isLoadRise, hload]
  have h2 : ∀ s2 : Lines, s2.load = true →
      edges s2 [(⟨Line.LOAD, false⟩ : LineOp), ⟨Line.LOAD, true⟩] = [Edge.load] := by
    intro s2 _
    simp [edges, isClkRise, isLoadRise, Lines.set]
  rw [show (⟨Line.LOAD, true⟩ : LineOp) :: (MAX7219SendByte linePins addr
        ++ (MAX7219SendByte linePins data ++ [⟨Line.LOAD, false⟩, ⟨Line.LOAD, true⟩]))
      = [⟨Line.LOAD, true⟩] ++ (MAX7219SendByte linePins addr
        ++ (MAX7219SendByte linePins data ++ [⟨Line.LOAD, false⟩, ⟨Line.LOAD, true⟩])) from rfl,
    edges_append, edges_append, edges_append, h1, edges_sendByte, edges_sendByte, h2]
  · rfl
  · rw [run_sendByte, run_sendByte]
    rfl

theorem edges_writeAll (ws : List (Nat × Nat)) (s : Lines) (hload : s.load = true) :
    edges s (writeAll linePins ws) = (List.replicate ws.length frameEdges).flatten := by
  induction ws generalizing s with
  | nil => rfl
  | cons w ws ih =>
    rw [writeAll_cons, edges_append, edges_write s hload, ih _ (by rw [run_write]),
      List.length_cons, List.replicate_succ, List.flatten_cons]

theorem loadRises_eq_count (s : Lines) (t : List LineOp) :
    loadRises s t = (edges s t).count Edge.load := by
  induction t generalizing s with
  | nil => rfl
  | cons op t ih =>
    simp only [loadRises, edges, ih, List.count_append]
    by_cases hc : isClkRise s op = true
    · have hl : isLoadRise s op = false := by
        unfold isClkRise at hc
        unfold isLoadRise
        cases hop : op.line <;> simp [hop] at hc ⊢
      simp [hc, hl]
    · by_cases hl : isLoadRise s op = true
      · simp [hc, hl]
      · simp [hc, hl]

theorem count_load_frames (n : Nat) :
    ((List.replicate n frameEdges).flatten).count Edge.load = n := by
  induction n with
  | zero => rfl
  | succ n ih =>
    rw [List.replicate_succ, List.flatten_cons, List.count_append, ih]
    have h : frameEdges.count Edge.load = 1 := by decide
    omega

/-- Every trace that ends with a register write leaves CLK and LOAD high. -/
theorem run_ends_with_write (s : Lines) (front : List LineOp) (addr data : Nat) :
    (Lines.run s (front ++ MAX7219Write linePins addr data)).clk = true
      ∧ (Lines.run s (front ++ MAX7219Write linePins addr data)).load = true := by
  rw [run_append, run_write]
  exact ⟨rfl, rfl⟩

theorem run_write_idle (s : Lines) (addr data : Nat) :
    (Lines.run s (MAX7219Write linePins addr data)).clk = true
      ∧ (Lines.run s (MAX7219Write linePins addr data)).load = true :=
  run_ends_with_write s [] addr data

theorem run_init_idle (s : Lines) :
    (Lines.run s (MAX7219Init linePins)).clk = true
      ∧ (Lines.run s (MAX7219Init linePins)).load = true := by
  obtain ⟨front, h⟩ := init_ends_with_setBrightness linePins
  rw [h]
  exact run_ends_with_write s front _ _

theorem run_clear_idle (s : Lines) :
    (Lines.run s (MAX7219Clear linePins)).clk = true
      ∧ (Lines.run s (MAX7219Clear linePins)).load = true := by
  have h : MAX7219Clear linePins
      = writeAll linePins [(0, 0), (1, 0), (2, 0), (3, 0), (4, 0), (5, 0), (6, 0)]
          ++ MAX7219Write linePins 7 0 := by
    rw [clear_writeAll, ← writeAll_single, ← writeAll_append]
    rfl
  rw [h]
  exact run_ends_with_write s _ _ _

/-! ## C20 -/

/-- C20: after every public driver operation the CLK line and the LOAD line are
both high, whatever the line levels before; and starting with LOAD high, a
sequence of `n` register writes causes exactly `n` low-to-high transitions of
LOAD, each after exactly 16 new rising edges of CLK, the leading `LOAD high` of a
write causing no transition, so that the device latches the `n` frames written and
nothing else. -/
theorem idle_invariant_and_latches (s : Lines) (ws : List (Nat × Nat))
    (hload : s.load = true) :
    (∀ (s0 : Lines) (addr data : Nat) (b f : Int),
        ∀ t ∈ [MAX7219Init linePins, MAX7219Write linePins addr data,
            MAX7219ShutdownStart linePins, MAX7219ShutdownStop linePins,
            MAX7219DisplayTestStart linePins, MAX7219DisplayTestStop linePins,
            MAX7219SetBrightness linePins b, MAX7219Clear linePins,
            MAX7219DisplayL123 linePins f],
          (Lines.run s0 t).clk = true ∧ (Lines.run s0 t).load = true)
      ∧ (∀ (s0 : Lines) (sc : Bool) (digit c : Int) (d : Nat) (t : List LineOp),
          Avr8.MAX7219DisplayChar linePins digit c d = some t
            ∨ Avr32.MAX7219DisplayChar linePins sc digit c d = some t →
          (Lines.run s0 t).clk = true ∧ (Lines.run s0 t).load = true)
      ∧ edges s (writeAll linePins ws) = (List.replicate ws.length frameEdges).flatten
      ∧ frameEdges = List.replicate 16 Edge.clk ++ [Edge.load]
      ∧ loadRises s (writeAll linePins ws) = ws.length
      ∧ (∀ dev : Device, dev.lines = s →
          (Device.run dev (writeAll linePins ws)).writes
            = dev.writes ++ ws.map (fun w => (w.1 % 256, w.2 % 256))) := by
  refine ⟨?_, ?_, edges_writeAll ws s hload, rfl, ?_, ?_⟩
  · intro s0 addr data b f t ht
    simp only [List.mem_cons, List.mem_singleton, List.not_mem_nil, or_false] at ht
    rcases ht with h | h | h | h | h | h | h | h | h
    · rw [h]; exact run_init_idle s0
    · rw [h]; exact run_write_idle s0 _ _
    · rw [h]; exact run_write_idle s0 _ _
    · rw [h]; exact run_write_idle s0 _ _
    · rw [h]; exact run_write_idle s0 _ _
    · rw [h]; exact run_write_idle s0 _ _
    · rw [h]; exact run_write_idle s0 _ _
    · rw [h]; exact run_clear_idle s0
    · rw [h]; exact run_write_idle s0 _ _
  · intro s0 sc digit c d t ht
    have hex : ∃ payload, t = MAX7219Write linePins (toUChar digit) payload := by
      rcases ht with h | h
      · rw [avr8_displayChar_lookup] at h
        cases hl : Avr8.lookup c with
        | none => rw [hl] at h; simp at h
        | some byte => rw [hl] at h; exact ⟨_, (Option.some.inj h).symm⟩
      · rw [avr32_displayChar_lookup] at h
        cases hl : Avr32.MAX7219LookupCode sc c with
        | none => rw [hl] at h; simp at h
        | some byte => rw [hl] at h; exact ⟨_, (Option.some.inj h).symm⟩
    obtain ⟨payload, hp⟩ := hex
    rw [hp]
    exact run_write_idle s0 _ _
  · rw [loadRises_eq_count, edges_writeAll ws s hload, count_load_frames]
  · intro dev hdev
    exact (device_run_writeAll ws dev (by rw [hdev]; exact hload)).1

/-- Witness for C20: two register writes from idle lines cause 16 CLK edges, a
LOAD edge, 16 CLK edges and a LOAD edge. -/
theorem idle_invariant_and_latches_witness :
    (⟨false, true, true⟩ : Lines).load = true
      ∧ edges ⟨false, true, true⟩ (writeAll linePins [(0x0C, 1), (0x0A, 0x0F)])
          = (List.replicate 2 frameEdges).flatten
      ∧ loadRises ⟨false, true, true⟩ (writeAll linePins [(0x0C, 1), (0x0A, 0x0F)]) = 2 :=
  ⟨rfl,
   (idle_invariant_and_latches ⟨false, true, true⟩ [(0x0C, 1), (0x0A, 0x0F)] rfl).2.2.1,
   (idle_invariant_and_latches ⟨false, true, true⟩ [(0x0C, 1), (0x0A, 0x0F)] rfl).2.2.2.2.1⟩

/-! ## Helper lemmas: DATA operations between clock operations -/

theorem dataFramedFrom_cons (prev : Option LineOp) (op : LineOp) (t : List LineOp) :
    dataFramedFrom prev (op :: t)
      = ((op.line != Line.DATA
            || (prev == some ⟨Line.CLK, false⟩ && t.head? == some ⟨Line.CLK, true⟩))
          && dataFramedFrom (some op) t) := rfl

/-- Two traces, each framed whatever precedes it, are framed when joined. -/
theorem dataFramedFrom_append (t u : List LineOp) (prev : Option LineOp)
    (ht : dataFramedFrom prev t = true) (hu : ∀ p, dataFramedFrom p u = true) :
    dataFramedFrom prev (t ++ u) = true := by
  induction t generalizing prev with
  | nil => exact hu prev
  | cons y t ih =>
    rw [dataFramedFrom_cons, Bool.and_eq_true] at ht
    rw [List.cons_append, dataFramedFrom_cons, Bool.and_eq_true]
    refine ⟨?_, ih _ ht.2⟩
    cases t with
    | nil =>
      have h1 := ht.1
      simp only [List.head?_nil, Bool.or_eq_true, Bool.and_eq_true] at h1
      rcases h1 with h | ⟨_, h⟩
      · simp [h]
      · simp at h
    | cons z t => exact ht.1

theorem dataFramedFrom_triple (prev : Option LineOp) (v : Bool) :
    dataFramedFrom prev [⟨Line.CLK, false⟩, ⟨Line.DATA, v⟩, ⟨Line.CLK, true⟩] = true := by
  simp [dataFramedFrom]

theorem dataFramedFrom_loop (b i : Nat) (hi : i ≤ 8) (prev : Option LineOp) :
    dataFramedFrom prev (MAX7219SendByte.loop linePins b i) = true := by
  induction i generalizing prev with
  | zero => rfl
  | succ i ih =>
    rw [loop_succ b i (by omega)]
    exact dataFramedFrom_append _ _ prev (dataFramedFrom_triple prev _) (ih (by omega))

theorem dataFramedFrom_write (addr data : Nat) (prev : Option LineOp) :
    dataFramedFrom prev (MAX7219Write linePins addr data) = true := by
  rw [write_unfold, dataFramedFrom_cons, Bool.and_eq_true]
  refine ⟨by simp, ?_⟩
  refine dataFramedFrom_append _ _ _ (dataFramedFrom_loop _ 8 (le_refl _) _) ?_
  intro p
  refine dataFramedFrom_append _ _ _ (dataFramedFrom_loop _ 8 (le_refl _) _) ?_
  intro q
  simp [dataFramedFrom]

theorem dataFramedFrom_writeAll (ws : List (Nat × Nat)) (prev : Option LineOp) :
    dataFramedFrom prev (writeAll linePins ws) = true := by
  induction ws generalizing prev with
  | nil => rfl
  | cons w ws ih =>
    rw [writeAll_cons]
    exact dataFramedFrom_append _ _ prev (dataFramedFrom_write _ _ prev) ih

theorem dataWritesClkLow_cons (s : Lines) (op : LineOp) (t : List LineOp) :
    dataWritesClkLow s (op :: t)
      = ((op.line != Line.DATA || !s.clk) && dataWritesClkLow (s.set op) t) := rfl

theorem dataWritesClkLow_append (s : Lines) (t u : List LineOp) :
    dataWritesClkLow s (t ++ u)
      = (dataWritesClkLow s t && dataWritesClkLow (Lines.run s t) u) := by
  induction t generalizing s with
  | nil => simp [dataWritesClkLow, Lines.run]
  | cons op t ih =>
    rw [List.cons_append, dataWritesClkLow_cons, dataWritesClkLow_cons, ih, run_cons,
      Bool.and_assoc]

theorem dataWritesClkLow_loop (b i : Nat) (hi : i ≤ 8) (s : Lines) :
    dataWritesClkLow s (MAX7219SendByte.loop linePins b i) = true := by
  induction i generalizing s with
  | zero => rfl
  | succ i ih =>
    rw [loop_succ b i (by omega), dataWritesClkLow_append, ih (by omega)]
    simp [dataWritesClkLow, Lines.set]

theorem dataWritesClkLow_write (addr data : Nat) (s : Lines) :
    dataWritesClkLow s (MAX7219Write linePins addr data) = true := by
  unfold MAX7219Write MAX7219SendByte
  simp only [dataWritesClkLow_append, dataWritesClkLow_loop _ 8 (le_refl _)]
  simp [dataWritesClkLow, linePins]

theorem dataWritesClkLow_writeAll (ws : List (Nat × Nat)) (s : Lines) :
    dataWritesClkLow s (writeAll linePins ws) = true := by
  induction ws generalizing s with
  | nil => rfl
  | cons w ws ih =>
    rw [writeAll_cons, dataWritesClkLow_append, dataWritesClkLow_write, ih]
    rfl

/-! ## Helper lemmas: sequences of public operations -/

theorem callsWith_cons {ε : Type} (dc : Int → Int → Nat → Option (List ε)) (P : Pins ε)
    (c : Call) (cs : List Call) :
    callsWith dc P (c :: cs)
      = match callWith dc P c, callsWith dc P cs with
        | some t, some u => some (t ++ u)
        | _, _ => none := rfl

/-- The trace of a call is that of a sequence of register writes, provided the
trace of `MAX7219DisplayChar` is. -/
theorem callWith_writeAll (dc : Int → Int → Nat → Option (List LineOp))
    (hdc : ∀ digit c d t, dc digit c d = some t → ∃ ws, t = writeAll linePins ws)
    (c : Call) (t : List LineOp) (h : callWith dc linePins c = some t) :
    ∃ ws, t = writeAll linePins ws := by
  cases c with
  | Init =>
    refine ⟨[(0x0b, 7), (0x09, 0x00), (0x0c, 1), (0x0f, 0), (0, 0x00), (1, 0x00), (2, 0x00),
      (3, 0x00), (4, 0x00), (5, 0x00), (6, 0x00), (7, 0x00), (0x0a, 0x0f)], ?_⟩
    rw [← Option.some.inj h, init_writeAll]
    rfl
  | ShutdownStart => exact ⟨[(_, _)], by rw [← Option.some.inj h]; exact (writeAll_single linePins _ _).symm⟩
  | ShutdownStop => exact ⟨[(_, _)], by rw [← Option.some.inj h]; exact (writeAll_single linePins _ _).symm⟩
  | DisplayTestStart => exact ⟨[(_, _)], by rw [← Option.some.inj h]; exact (writeAll_single linePins _ _).symm⟩
  | DisplayTestStop => exact ⟨[(_, _)], by rw [← Option.some.inj h]; exact (writeAll_single linePins _ _).symm⟩
  | SetBrightness b => exact ⟨[(_, _)], by rw [← Option.some.inj h]; exact (writeAll_single linePins _ _).symm⟩
  | Clear => exact ⟨_, by rw [← Option.some.inj h, clear_writeAll]⟩
  | DisplayChar digit c d => exact hdc digit c d t h
  | DisplayL123 bits => exact ⟨[(_, _)], by rw [← Option.some.inj h]; exact (writeAll_single linePins _ _).symm⟩
  | Write a v => exact ⟨[(_, _)], by rw [← Option.some.inj h]; exact (writeAll_single linePins _ _).symm⟩

theorem callsWith_writeAll (dc : Int → Int → Nat → Option (List LineOp))
    (hdc : ∀ digit c d t, dc digit c d = some t → ∃ ws, t = writeAll linePins ws)
    (cs : List Call) (t : List LineOp) (h : callsWith dc linePins cs = some t) :
    ∃ ws, t = writeAll linePins ws := by
  induction cs generalizing t with
  | nil =>
    refine ⟨[], ?_⟩
    rw [← Option.some.inj h]
    rfl
  | cons c cs ih =>
    rw [callsWith_cons] at h
    cases h1 : callWith dc linePins c with
    | none => rw [h1] at h; simp at h
    | some t1 =>
      cases h2 : callsWith dc linePins cs with
      | none => rw [h1, h2] at h; simp at h
      | some t2 =>
        rw [h1, h2] at h
        obtain ⟨ws1, hw1⟩ := callWith_writeAll dc hdc c t1 h1
        obtain ⟨ws2, hw2⟩ := ih t2 h2
        refine ⟨ws1 ++ ws2, ?_⟩
        rw [← Option.some.inj h, hw1, hw2, writeAll_append]

theorem avr8_displayChar_writeAll (digit c : Int) (d : Nat) (t : List LineOp)
    (h : Avr8.MAX7219DisplayChar linePins digit c d = some t) :
    ∃ ws, t = writeAll linePins ws := by
  rw [avr8_displayChar_lookup] at h
  cases hl : Avr8.lookup c with
  | none => rw [hl] at h; simp at h
  | some byte =>
    rw [hl] at h
    exact ⟨[(_, _)], by rw [← Option.some.inj h, writeAll_single]⟩

theorem avr32_displayChar_writeAll (sc : Bool) (digit c : Int) (d : Nat) (t : List LineOp)
    (h : Avr32.MAX7219DisplayChar linePins sc digit c d = some t) :
    ∃ ws, t = writeAll linePins ws := by
  rw [avr32_displayChar_lookup] at h
  cases hl : Avr32.MAX7219LookupCode sc c with
  | none => rw [hl] at h; simp at h
  | some byte =>
    rw [hl] at h
    exact ⟨[(_, _)], by rw [← Option.some.inj h, writeAll_single]⟩

/-- Read as line operations, the trace of a call on a platform is the trace of
the call on the abstract lines. -/
theorem callWith_lines {ε : Type} (P : Pins ε) (f : ε → Option LineOp) (hf : P.ReadsAs f)
    (dcP : Int → Int → Nat → Option (List ε)) (dcL : Int → Int → Nat → Option (List LineOp))
    (hdc : ∀ digit c d, (dcP digit c d).map (List.filterMap f) = dcL digit c d) (c : Call) :
    (callWith dcP P c).map (List.filterMap f) = callWith dcL linePins c := by
  cases c with
  | Init => exact congrArg some (init_lines P f hf)
  | ShutdownStart => exact congrArg some (write_lines P f hf _ _)
  | ShutdownStop => exact congrArg some (write_lines P f hf _ _)
  | DisplayTestStart => exact congrArg some (write_lines P f hf _ _)
  | DisplayTestStop => exact congrArg some (write_lines P f hf _ _)
  | SetBrightness b => exact congrArg some (write_lines P f hf _ _)
  | Clear => exact congrArg some (clear_lines P f hf)
  | DisplayChar digit c d => exact hdc digit c d
  | DisplayL123 bits => exact congrArg some (write_lines P f hf _ _)
  | Write a v => exact congrArg some (write_lines P f hf _ _)

theorem callsWith_lines {ε : Type} (P : Pins ε) (f : ε → Option LineOp) (hf : P.ReadsAs f)
    (dcP : Int → Int → Nat → Option (List ε)) (dcL : Int → Int → Nat → Option (List LineOp))
    (hdc : ∀ digit c d, (dcP digit c d).map (List.filterMap f) = dcL digit c d)
    (cs : List Call) :
    (callsWith dcP P cs).map (List.filterMap f) = callsWith dcL linePins cs := by
  induction cs with
  | nil => rfl
  | cons c cs ih =>
    rw [callsWith_cons, callsWith_cons, ← callWith_lines P f hf dcP dcL hdc c, ← ih]
    cases callWith dcP P c with
    | none => rfl
    | some t =>
      cases callsWith dcP P cs with
      | none => rfl
      | some u => simp [List.filterMap_append]

theorem avr8_calls_lines (cs : List Call) :
    (Avr8.calls Avr8.pins cs).map (List.filterMap Avr8.toLineOp) = Avr8.calls linePins cs := by
  refine callsWith_lines _ _ avr8_readsAs _ _ ?_ cs
  intro digit c d
  rw [avr8_displayChar_lookup, avr8_displayChar_lookup]
  cases Avr8.lookup c with
  | none => rfl
  | some byte => exact congrArg some (write_lines _ _ avr8_readsAs _ _)

theorem avr32_calls_lines (sc : Bool) (cs : List Call) :
    (Avr32.calls Avr32.pins sc cs).map (List.filterMap Avr32.toLineOp)
      = Avr32.calls linePins sc cs := by
  refine callsWith_lines _ _ avr32_readsAs _ _ ?_ cs
  intro digit c d
  rw [avr32_displayChar_lookup, avr32_displayChar_lookup]
  cases Avr32.MAX7219LookupCode sc c with
  | none => rfl
  | some byte => exact congrArg some (write_lines _ _ avr32_readsAs _ _)
/-- What `dataFramedFrom` says, operation by operation: a DATA operation at
position `i` has `CLOCK low` at position `i - 1` (or as the operation before the
list, for `i = 0`) and `CLOCK high` at position `i + 1`. -/
theorem dataFramedFrom_index (t : List LineOp) (prev : Option LineOp)
    (h : dataFramedFrom prev t = true) (i : Nat) (op : LineOp) (hop : t[i]? = some op)
    (hdata : op.line = Line.DATA) :
    (if i = 0 then prev else t[i - 1]?) = some ⟨Line.CLK, false⟩
      ∧ t[i + 1]? = some ⟨Line.CLK, true⟩ := by
  induction t generalizing prev i with
  | nil => simp at hop
  | cons y t ih =>
    rw [dataFramedFrom_cons, Bool.and_eq_true] at h
    cases i with
    | zero =>
      simp only [List.getElem?_cons_zero, Option.some.injEq] at hop
      subst hop
      have h1 := h.1
      simp only [hdata, bne_self_eq_false, Bool.false_or, Bool.and_eq_true, beq_iff_eq] at h1
      refine ⟨by simpa using h1.1, ?_⟩
      rw [List.getElem?_cons_succ, ← List.head?_eq_getElem?]
      exact h1.2
    | succ j =>
      rw [List.getElem?_cons_succ] at hop
      have hj := ih (some y) h.2 j hop
      refine ⟨?_, by rw [List.getElem?_cons_succ]; exact hj.2⟩
      cases j with
      | zero => simpa using hj.1
      | succ k => simpa using hj.1

/-! ## C21 -/

/-- C21: in the line-operation trace `t` of any sequence of calls of the public
driver functions, of either variant, every DATA operation has the operation
`CLOCK low` immediately before it and the operation `CLOCK high` immediately
after it, and no DATA operation happens while CLK is high, whatever the line
levels at the start. -/
theorem data_written_only_while_clock_low (sc : Bool) (cs : List Call) (t : List LineOp)
    (h : Avr8.calls linePins cs = some t ∨ Avr32.calls linePins sc cs = some t) :
    (∀ i op, t[i]? = some op → op.line = Line.DATA →
        0 < i ∧ t[i - 1]? = some ⟨Line.CLK, false⟩ ∧ t[i + 1]? = some ⟨Line.CLK, true⟩)
      ∧ dataFramed t = true
      ∧ (∀ s : Lines, dataWritesClkLow s t = true)
      ∧ (Avr8.calls Avr8.pins cs).map (List.filterMap Avr8.toLineOp) = Avr8.calls linePins cs
      ∧ (Avr32.calls Avr32.pins sc cs).map (List.filterMap Avr32.toLineOp)
          = Avr32.calls linePins sc cs := by
  have hws : ∃ ws, t = writeAll linePins ws := by
    rcases h with h | h
    · exact callsWith_writeAll _ avr8_displayChar_writeAll cs t h
    · exact callsWith_writeAll _ (avr32_displayChar_writeAll sc) cs t h
  obtain ⟨ws, hw⟩ := hws
  have hframed : dataFramed t = true := by
    rw [hw]
    exact dataFramedFrom_writeAll ws none
  refine ⟨?_, hframed, ?_, avr8_calls_lines cs, avr32_calls_lines sc cs⟩
  · intro i op hop hdata
    have hidx := dataFramedFrom_index t none hframed i op hop hdata
    cases i with
    | zero => simp at hidx
    | succ j => exact ⟨Nat.succ_pos j, by simpa using hidx.1, hidx.2⟩
  · intro s
    rw [hw]
    exact dataWritesClkLow_writeAll ws s

/-- Witness for C21: `MAX7219Init` followed by `MAX7219DisplayChar(1, 'A', 0x80)`
in the 8-bit variant. -/
theorem data_written_only_while_clock_low_witness :
    Avr8.calls linePins [Call.Init, Call.DisplayChar 1 65 0x80]
        = some (MAX7219Init linePins ++ (MAX7219Write linePins 1 0xF7 ++ []))
      ∧ dataFramed (MAX7219Init linePins ++ (MAX7219Write linePins 1 0xF7 ++ [])) = true
      ∧ dataWritesClkLow ⟨true, true, false⟩
          (MAX7219Init linePins ++ (MAX7219Write linePins 1 0xF7 ++ [])) = true :=
  ⟨rfl,
   (data_written_only_while_clock_low true [Call.Init, Call.DisplayChar 1 65 0x80] _
      (Or.inl rfl)).2.1,
   (data_written_only_while_clock_low true [Call.Init, Call.DisplayChar 1 65 0x80] _
      (Or.inl rfl)).2.2.1 ⟨true, true, false⟩⟩

/-! ## C22 -/

/-- C22: the 8-bit segment table has exactly 64 entries, and for every character
`c` the index `toupper(c) - 32` used by `MAX7219DisplayChar` lies within the table
if and only if `32 <= toupper(c) <= 95`, that is, if and only if `c` is in 32..95
(space, digits, punctuation, uppercase letters) or a lowercase letter 97..122;
exactly then the table read yields a pattern. -/
theorem avr8_index_in_bounds (c : Int) :
    Avr8.SegmentData.length = 64
      ∧ ((0 ≤ toupper c - 32 ∧ toupper c - 32 < (Avr8.SegmentData.length : Int))
          ↔ (32 ≤ toupper c ∧ toupper c ≤ 95))
      ∧ ((32 ≤ toupper c ∧ toupper c ≤ 95) ↔ ((32 ≤ c ∧ c ≤ 95) ∨ (97 ≤ c ∧ c ≤ 122)))
      ∧ ((Avr8.lookup c).isSome = true ↔ (32 ≤ toupper c ∧ toupper c ≤ 95))
      ∧ ((32 ≤ c ∧ c ≤ 95) ∨ (97 ≤ c ∧ c ≤ 122) → (Avr8.lookup c).isSome = true) := by
  have hlen : ((Avr8.SegmentData.length : Nat) : Int) = 64 := by
    rw [avr8_segmentData_length]; rfl
  have hup : (32 ≤ toupper c ∧ toupper c ≤ 95) ↔ ((32 ≤ c ∧ c ≤ 95) ∨ (97 ≤ c ∧ c ≤ 122)) := by
    unfold toupper
    split_ifs <;> omega
  have hsome : (Avr8.lookup c).isSome = true ↔ (32 ≤ toupper c ∧ toupper c ≤ 95) := by
    rw [Option.isSome_iff_ne_none, Ne, avr8_lookup_none_iff]
    omega
  refine ⟨avr8_segmentData_length, ?_, hup, hsome, ?_⟩
  · rw [hlen]; omega
  · intro h
    exact hsome.2 (hup.2 h)

/-! ## C23 -/

theorem scan_cons_entry (x : Int) (e : Avr32.Entry) (rest : List Avr32.Entry) :
    Avr32.MAX7219LookupCode.scan x (e :: rest)
      = if e.ascii = 0 then some 0 else if x = e.ascii then some (toUChar e.segs)
        else Avr32.MAX7219LookupCode.scan x rest := rfl

/-- The scan loop from index `i`, on a table whose entry at index `j >= i` is a
terminating entry: with more than `j - i` iterations allowed it returns, reads no
index beyond `j`, makes at most `j - i` comparisons, and returns what the scan
over the entries from `i` on returns. -/
theorem steps_bound (tbl : List Avr32.Entry) (x : Int) (j : Nat) (hj : j < 256)
    (e0 : Avr32.Entry) (hterm : tbl[j]? = some e0) (hzero : e0.ascii = 0) :
    ∀ (fuel i : Nat), i ≤ j → j - i < fuel →
      ∃ r, Avr32.MAX7219LookupCode.steps tbl x fuel i = some r
        ∧ r.lastIndex ≤ j ∧ r.comparisons ≤ j - i
        ∧ Avr32.MAX7219LookupCode.scan x (tbl.drop i) = some r.result := by
  intro fuel
  induction fuel with
  | zero => intro i _ h; omega
  | succ fuel ih =>
    intro i hij hfuel
    have hlen : j < tbl.length := by
      rcases List.getElem?_eq_some.1 hterm with ⟨h, _⟩
      exact h
    have hi : i < tbl.length := by omega
    have hget : tbl[i]? = some tbl[i] := List.getElem?_eq_getElem hi
    have hdrop : tbl.drop i = tbl[i] :: tbl.drop (i + 1) := List.drop_eq_getElem_cons hi
    unfold Avr32.MAX7219LookupCode.steps
    rw [hget, hdrop, scan_cons_entry]
    simp only []
    by_cases h0 : tbl[i].ascii = 0
    · rw [if_pos h0, if_pos h0]
      exact ⟨_, rfl, hij, Nat.zero_le _, rfl⟩
    · rw [if_neg h0, if_neg h0]
      have hlt : i < j := by
        rcases Nat.lt_or_ge i j with h | h
        · exact h
        · exfalso
          have hije : i = j := by omega
          subst hije
          rw [hget] at hterm
          rw [Option.some.inj hterm] at h0
          exact h0 hzero
      by_cases hx : x = tbl[i].ascii
      · rw [if_pos hx, if_pos hx]
        exact ⟨_, rfl, hij, by simp only []; omega, rfl⟩
      · rw [if_neg hx, if_neg hx]
        have hmod : (i + 1) % 256 = i + 1 := Nat.mod_eq_of_lt (by omega)
        rw [hmod]
        obtain ⟨r, hr, h1, h2, h3⟩ := ih (i + 1) (by omega) (by omega)
        rw [hr]
        exact ⟨_, rfl, h1, by simp only [Option.map_some']; omega, h3⟩

/-- C23: in the 32-bit variant the scan of `MAX7219LookupCode` returns for every
input character as soon as 19 iterations are allowed, after at most 18
comparisons with table keys and without reading the table beyond index 18, where
the terminating entry is, the first one whose key is 0; the value returned is
that of `MAX7219LookupCode`. -/
theorem lookupCode_scan_terminates (sc : Bool) (c : Int) (fuel : Nat) (hfuel : 18 < fuel) :
    ∃ r, Avr32.MAX7219LookupCode.steps (Avr32.SegmentData sc) (toupper c) fuel 0 = some r
      ∧ r.comparisons ≤ 18 ∧ r.lastIndex ≤ 18
      ∧ Avr32.MAX7219LookupCode sc c = some r.result
      ∧ (Avr32.SegmentData sc).length = 19
      ∧ ((Avr32.SegmentData sc)[18]?).map Avr32.Entry.ascii = some 0
      ∧ (∀ i, i < 18 → ((Avr32.SegmentData sc)[i]?).map Avr32.Entry.ascii ≠ some 0) := by
  obtain ⟨r, hr, h1, h2, h3⟩ := steps_bound (Avr32.SegmentData sc) (toupper c) 18 (by omega)
    ⟨0, Avr32.toChar sc 0x00⟩ rfl rfl fuel 0 (by omega) (by omega)
  refine ⟨r, hr, by omega, h1, ?_, rfl, rfl, ?_⟩
  · rw [List.drop_zero] at h3
    exact h3
  · cases sc <;> decide

/-- Witness for C23: with 19 iterations allowed the letter `G` (71), which is no
key, makes the scan compare 18 times and stop at index 18. -/
theorem lookupCode_scan_terminates_witness :
    18 < 19
      ∧ Avr32.MAX7219LookupCode.steps (Avr32.SegmentData true) (toupper 71) 19 0
          = some ⟨0, 18, 18⟩
      ∧ ∃ r, Avr32.MAX7219LookupCode.steps (Avr32.SegmentData true) (toupper 71) 19 0 = some r
          ∧ r.comparisons ≤ 18 ∧ r.lastIndex ≤ 18
          ∧ Avr32.MAX7219LookupCode true 71 = some r.result :=
  ⟨by decide, by decide,
   (lookupCode_scan_terminates true 71 19 (by decide)).imp
     (fun _ h => ⟨h.1, h.2.1, h.2.2.1, h.2.2.2.1⟩)⟩

/-! ## Helper lemmas: line levels after a sequence of public operations -/

end Max7219
